import Mathlib

/-!
Verification development for the `sound-topology` audio-analysis core.

The TypeScript sources in `src/lib/` (phaseSpaceEmbedding.ts, phaseSpaceWorker.ts,
resonanceWorker.ts, lpcWorker.ts) are shallowly embedded below.  Floating-point
numbers are modelled as exact reals; JS `number` indices and `u32` parameters as
`ℕ`; JS arrays as `List`.  Division follows the Lean convention `x / 0 = 0`;
every place where the source can divide by zero is noted in a comment.
-/

noncomputable section

namespace ST

/-- A 3D point with time tag.  Mirrors `Point3D` of phaseSpaceWorker.ts /
`PhaseSpacePoint` of phaseSpaceEmbedding.ts / `ResPoint3D` of resonanceWorker.ts. -/
@[ext]
structure Point3D where
  x : ℝ
  y : ℝ
  z : ℝ
  t : ℝ

instance : Inhabited Point3D := ⟨⟨0, 0, 0, 0⟩⟩

/-! ### Indexed filtering (JS `Array.prototype.filter((_, i) => …)`) -/

/-- `filterIdx p c l` keeps the elements of `l` whose running index
(starting at `c`) satisfies `p`.  `filterIdx p 0` is JS `filter((_, i) => p i)`. -/
def filterIdx (p : ℕ → Bool) : ℕ → List α → List α
  | _, [] => []
  | c, a :: as => if p c then a :: filterIdx p (c + 1) as else filterIdx p (c + 1) as

/-- Stride decimation `points.filter((_, i) => i % step === 0)` as used (without a
`step ≤ 1` guard) by resonanceWorker.ts and lpcWorker.ts.  For `step = 0` the
source computes `i % Infinity`, which equals `i` for finite `i`, exactly like
`i % 0 = i` on `ℕ`, so `step = 0` faithfully models the `maxPoints = 0` edge. -/
def stridedFilter (l : List α) (step : ℕ) : List α :=
  filterIdx (fun i => i % step == 0) 0 l

/-- `downsample` of phaseSpaceWorker.ts / phaseSpaceEmbedding.ts: identity when
the JS `step <= 1`, else stride decimation.  The only call site passes
`Math.ceil(points.length / maxPoints)`, which is `Infinity` for
`maxPoints = 0`; `Infinity` is encoded as `0` (see `stridedFilter`, whose
`i % 0 = i` reproduces JS `i % Infinity === i`), and the JS guard
`step <= 1` is false on `Infinity`, so on this encoding it holds exactly
when `step = 1`. -/
def downsample (l : List α) (step : ℕ) : List α :=
  if step = 1 then l else stridedFilter l step

/-- `Math.ceil(a / b)` for natural `a`, `b ≥ 1`.  (For `b = 0` the JS expression
is `Infinity`; the natural-number value `0` below is then used as the
`stridedFilter` step, reproducing JS `i % Infinity = i`, see `stridedFilter`.) -/
def ceilDiv (a b : ℕ) : ℕ := (a + b - 1) / b

namespace PS

/-- `takensEmbedding(signal, tau)`: the delay embedding.  The `t` field stores
the raw loop index `t`, exactly as the source does. -/
def takensEmbedding (signal : List ℝ) (tau : ℕ) : List Point3D :=
  if signal.length < 2 * tau + 1 then []
  else (List.range (signal.length - 2 * tau)).map fun (t : ℕ) =>
    ⟨signal.getD t 0, signal.getD (t + tau) 0, signal.getD (t + 2 * tau) 0, (t : ℝ)⟩

/-- Centroid `(cx, cy, cz)` of a point cloud (sum divided by length; for the
empty list the source would divide by 0 — callers guard against that). -/
def centroid3 (ps : List Point3D) : ℝ × ℝ × ℝ :=
  ((ps.map Point3D.x).sum / ps.length,
   (ps.map Point3D.y).sum / ps.length,
   (ps.map Point3D.z).sum / ps.length)

/-- Distance of `p` from `c`, written with `dx*dx` products as in the source. -/
def ptRadius (c : ℝ × ℝ × ℝ) (p : Point3D) : ℝ :=
  Real.sqrt ((p.x - c.1) * (p.x - c.1) + (p.y - c.2.1) * (p.y - c.2.1) +
    (p.z - c.2.2) * (p.z - c.2.2))

/-- The running `maxRadius` accumulated by `normalizeManifold` (initial 0). -/
def maxRadius (ps : List Point3D) (c : ℝ × ℝ × ℝ) : ℝ :=
  ps.foldl (fun m p => max m (ptRadius c p)) 0

/-- `normalizeManifold`: center on the centroid, then (unless the max radius is
0) scale by the max radius. -/
def normalizeManifold (ps : List Point3D) : List Point3D :=
  match ps with
  | [] => []
  | _ :: _ =>
    let c := centroid3 ps
    let centered := ps.map fun p => ⟨p.x - c.1, p.y - c.2.1, p.z - c.2.2, p.t⟩
    let R := maxRadius ps c
    if R = 0 then centered
    else centered.map fun p => ⟨p.x / R, p.y / R, p.z / R, p.t⟩

/-- One Laplacian smoothing pass (`prev`/`next` clamp to the ends as in the
source: `max(0, i-1)` is `i - 1` on `ℕ`, `min(len-1, i+1)` is explicit). -/
def smoothOnce (alpha : ℝ) (pts : List Point3D) : List Point3D :=
  (List.range pts.length).map fun (i : ℕ) =>
    let prev := pts.getD (i - 1) default
    let curr := pts.getD i default
    let next := pts.getD (min (pts.length - 1) (i + 1)) default
    ⟨(1 - alpha) * curr.x + alpha * (prev.x + next.x) / 2,
     (1 - alpha) * curr.y + alpha * (prev.y + next.y) / 2,
     (1 - alpha) * curr.z + alpha * (prev.z + next.z) / 2,
     curr.t⟩

/-- `applySmoothing(points, iterations, alpha = 0.5)`. -/
def applySmoothing (pts : List Point3D) (iterations : ℕ) (alpha : ℝ := 0.5) : List Point3D :=
  if pts.length < 3 then pts else (smoothOnce alpha)^[iterations] pts

/-- Mean of the signal (`computeOptimalTau` phase 1). -/
def tauMean (s : List ℝ) : ℝ := s.sum / s.length

/-- Biased variance of the signal (`computeOptimalTau` phase 1). -/
def tauVariance (s : List ℝ) : ℝ :=
  (s.map fun x => (x - tauMean s) * (x - tauMean s)).sum / s.length

/-- `autocorr[lag]` as computed by `computeOptimalTau`:
sum over `i < n - lag`, normalized by `(n - lag) * variance`. -/
def autocorrAt (s : List ℝ) (lag : ℕ) : ℝ :=
  ((List.range (s.length - lag)).map fun (i : ℕ) =>
      (s.getD i 0 - tauMean s) * (s.getD (i + lag) 0 - tauMean s)).sum
    / (((s.length - lag : ℕ) : ℝ) * tauVariance s)

/-- The lags examined by both search loops of `computeOptimalTau`:
`for (lag = 1; lag < maxLag - 1; lag++)` with `maxLag = min(500, ⌊n/4⌋)`. -/
def searchLags (s : List ℝ) : List ℕ := List.range' 1 (min 500 (s.length / 4) - 2)

/-- `computeOptimalTau`: silence default 10; else first zero-crossing of the
autocorrelation (clamped to ≥ 5); else first local minimum (clamped to ≥ 5);
else 15. -/
def computeOptimalTau (s : List ℝ) : ℕ :=
  if tauVariance s < 1e-10 then 10
  else
    match (searchLags s).find? (fun lag => decide (autocorrAt s lag ≤ 0)) with
    | some lag => max 5 lag
    | none =>
      match (searchLags s).find? (fun lag =>
          decide (autocorrAt s lag < autocorrAt s (lag - 1) ∧
                  autocorrAt s lag < autocorrAt s (lag + 1))) with
      | some lag => max 5 lag
      | none => 15

/-- High-pass stage of `bandPassFilter` (state: `prevIn`, `prevOut`). -/
def highPassGo (a : ℝ) : ℝ → ℝ → List ℝ → List ℝ
  | _, _, [] => []
  | prevIn, prevOut, x :: xs =>
    let y := a * (prevOut + x - prevIn)
    y :: highPassGo a x y xs

/-- Low-pass recursion `result[i] = a*result[i-1] + (1-a)*hp[i]`. -/
def lowPassAux (a : ℝ) : ℝ → List ℝ → List ℝ
  | _, [] => []
  | prev, x :: xs =>
    let y := a * prev + (1 - a) * x
    y :: lowPassAux a y xs

/-- Low-pass stage of `bandPassFilter` (`result[0] = highPassed[0]`). -/
def lowPassGo (a : ℝ) : List ℝ → List ℝ
  | [] => []
  | x :: xs => x :: lowPassAux a x xs

/-- `bandPassFilter(samples, sampleRate)`: single-pole high-pass at 60 Hz
followed by exponential low-pass at 4 kHz. -/
def bandPassFilter (samples : List ℝ) (sampleRate : ℕ) : List ℝ :=
  let lowCut : ℝ := 60
  let highCut : ℝ := 4000
  let rc : ℝ := 1 / (2 * Real.pi * lowCut)
  let dt : ℝ := 1 / (sampleRate : ℝ)
  let alphaHP := rc / (rc + dt)
  let alphaLP := Real.exp (-(2 * Real.pi * highCut) / (sampleRate : ℝ))
  lowPassGo alphaLP (highPassGo alphaHP 0 0 samples)

/-- `adaptiveDownsample(samples, sampleRate)`: decimate to ≈1000 points/sec. -/
def adaptiveDownsample (samples : List ℝ) (sampleRate : ℕ) : List ℝ :=
  let step := max 1 (sampleRate / 1000)
  (List.range (ceilDiv samples.length step)).map fun i => samples.getD (i * step) 0

/-- Power iteration of `pcaAlign` (20 iterations, seed `(1,0,0)`;
the `mag < 1e-10` break is modelled by returning the current vector, which
is what the loop's `break` produces). -/
def powerIter (c00 c01 c02 c11 c12 c22 : ℝ) : ℕ → ℝ × ℝ × ℝ → ℝ × ℝ × ℝ
  | 0, v => v
  | k + 1, v =>
    let nx := c00 * v.1 + c01 * v.2.1 + c02 * v.2.2
    let ny := c01 * v.1 + c11 * v.2.1 + c12 * v.2.2
    let nz := c02 * v.1 + c12 * v.2.1 + c22 * v.2.2
    let mag := Real.sqrt (nx * nx + ny * ny + nz * nz)
    if mag < 1e-10 then v
    else powerIter c00 c01 c02 c11 c12 c22 k (nx / mag, ny / mag, nz / mag)

/-- `pcaAlign(points)`: identity below 10 points, else the simplified
PC1-projection / residual mapping of the source. -/
def pcaAlign (points : List Point3D) : List Point3D :=
  if points.length < 10 then points
  else
    let n : ℝ := points.length
    let cx := (points.map Point3D.x).sum / n
    let cy := (points.map Point3D.y).sum / n
    let cz := (points.map Point3D.z).sum / n
    let cov00 := (points.map fun p => (p.x - cx) * (p.x - cx)).sum / n
    let cov01 := (points.map fun p => (p.x - cx) * (p.y - cy)).sum / n
    let cov02 := (points.map fun p => (p.x - cx) * (p.z - cz)).sum / n
    let cov11 := (points.map fun p => (p.y - cy) * (p.y - cy)).sum / n
    let cov12 := (points.map fun p => (p.y - cy) * (p.z - cz)).sum / n
    let cov22 := (points.map fun p => (p.z - cz) * (p.z - cz)).sum / n
    let v1 := powerIter cov00 cov01 cov02 cov11 cov12 cov22 20 (1, 0, 0)
    points.map fun p =>
      let dx := p.x - cx
      let dy := p.y - cy
      let dz := p.z - cz
      ⟨dx * v1.1 + dy * v1.2.1 + dz * v1.2.2,
       dy - (dy * v1.2.1) * v1.2.1,
       dz - (dz * v1.2.2) * v1.2.2,
       p.t⟩

/-- Phase 1 of the worker's `onmessage`: optional band-pass + downsample. -/
def sdPreprocess (samples : List ℝ) (sampleRate : ℕ) (preprocess : Bool) : List ℝ :=
  if preprocess then adaptiveDownsample (bandPassFilter samples sampleRate) sampleRate
  else samples

/-- Phase 2: `computedTau`. -/
def sdTau (signal : List ℝ) (tau : ℕ) (autoTau : Bool) : ℕ :=
  if autoTau then computeOptimalTau signal else tau

/-- Phases 1–4: preprocessing, tau, embedding, optional PCA. -/
def sdEmbed (samples : List ℝ) (sampleRate tau : ℕ)
    (autoTau preprocess doPCA : Bool) : List Point3D :=
  let signal := sdPreprocess samples sampleRate preprocess
  let pts := takensEmbedding signal (sdTau signal tau autoTau)
  if doPCA ∧ 0 < pts.length then pcaAlign pts else pts

/-- The worker's whole `onmessage` body (returns `(points, computedTau)`).
The final decimation step is `Math.ceil(points.length / maxPoints)`, modelled
by `ceilDiv`. -/
def signalDynamics (samples : List ℝ) (sampleRate tau : ℕ)
    (autoTau : Bool) (smoothing : ℕ) (normalize preprocess doPCA : Bool)
    (maxPoints : ℕ) : List Point3D × ℕ :=
  let pts1 := sdEmbed samples sampleRate tau autoTau preprocess doPCA
  let pts2 := if normalize then normalizeManifold pts1 else pts1
  let pts3 := if 0 < smoothing then applySmoothing pts2 smoothing else pts2
  let pts4 :=
    if maxPoints < pts3.length then downsample pts3 (ceilDiv pts3.length maxPoints)
    else pts3
  (pts4, sdTau (sdPreprocess samples sampleRate preprocess) tau autoTau)

end PS

/-! ### resonanceWorker.ts -/

namespace RW

/-- `ResFormantFrame`: a time stamp plus the formant triple `[f1, f2, f3]`. -/
structure FormantFrame where
  time : ℝ
  f1 : ℝ
  f2 : ℝ
  f3 : ℝ

instance : Inhabited FormantFrame := ⟨⟨0, 0, 0, 0⟩⟩

/-- An envelope peak candidate of `detectFormants`. -/
structure Peak where
  freq : ℝ
  mag : ℝ
  prominence : ℝ

/-- JS `x || d` for a possibly-missing number: `undefined` and `0` both fall
back to the default (`0` is falsy in JS). -/
def jsOrZero (v : Option ℝ) (d : ℝ) : ℝ :=
  match v with
  | none => d
  | some x => if x = 0 then d else x

/-- The peak scan of `detectFormants`: local maxima of the envelope for bins
`minBin+1 ≤ i < maxBin-1`, with prominence = peak minus lower neighbour. -/
def envelopePeaks (envelope : List ℝ) (sampleRate : ℕ) : List Peak :=
  let n := envelope.length
  let fpb : ℝ := (sampleRate : ℝ) / (2 * (n : ℝ))
  let minBin := (⌊(200 : ℝ) / fpb⌋).toNat
  let maxBin := min (n - 1) (⌊(4000 : ℝ) / fpb⌋).toNat
  (List.range' (minBin + 1) (maxBin - 1 - (minBin + 1))).filterMap fun i =>
    if envelope.getD (i - 1) 0 < envelope.getD i 0 ∧
       envelope.getD (i + 1) 0 < envelope.getD i 0 then
      some ⟨(i : ℝ) * fpb, envelope.getD i 0,
        envelope.getD i 0 - min (envelope.getD (i - 1) 0) (envelope.getD (i + 1) 0)⟩
    else none

/-- `peaks.sort((a, b) => b.prominence - a.prominence)` (stable, descending by
prominence), then `slice(0, 3).map(p => p.freq)`, then `.sort((a, b) => a - b)`. -/
def topFreqs (envelope : List ℝ) (sampleRate : ℕ) : List ℝ :=
  List.insertionSort (fun a b : ℝ => a ≤ b)
    (((List.insertionSort (fun a b : Peak => b.prominence ≤ a.prominence)
        (envelopePeaks envelope sampleRate)).take 3).map Peak.freq)

/-- `detectFormants(envelope, sampleRate)`: the top three frequencies sorted
ascending, missing slots defaulted via `||` to 500 / 1500 / 2500 Hz. -/
def detectFormants (envelope : List ℝ) (sampleRate : ℕ) : ℝ × ℝ × ℝ :=
  let tf := topFreqs envelope sampleRate
  (jsOrZero (tf.get? 0) 500, jsOrZero (tf.get? 1) 1500, jsOrZero (tf.get? 2) 2500)

/-- `generateLissajous`: averaged-ratio parametric curve,
`numPoints = min(maxPoints, 2000)`, 10 cycles. -/
def generateLissajous (traj : List FormantFrame) (maxPoints : ℕ) : List Point3D :=
  if traj.length = 0 then []
  else
    let avgF1 := (traj.map FormantFrame.f1).sum / (traj.length : ℝ)
    let avgF2 := (traj.map FormantFrame.f2).sum / (traj.length : ℝ)
    let avgF3 := (traj.map FormantFrame.f3).sum / (traj.length : ℝ)
    let r12 := avgF1 / avgF2
    let r23 := avgF2 / avgF3
    let r13 := avgF1 / avgF3
    let numPoints := min maxPoints 2000
    (List.range numPoints).map fun (i : ℕ) =>
      let t := ((i : ℝ) / (numPoints : ℝ)) * 10 * (2 * Real.pi)
      ⟨Real.sin (r13 * t), Real.sin (r23 * t + Real.pi / 4), Real.sin (r12 * t + Real.pi / 2),
       (i : ℝ) / (numPoints : ℝ)⟩

/-- `generateCymatics`: Chladni pattern sampled on a
`gridSize × gridSize` grid, `gridSize = ⌊√maxPoints⌋`.  (For `gridSize = 1` the
source divides by `gridSize - 1 = 0`, yielding NaN coordinates; here `0/0 = 0`.
Mode numbers use `Math.round = ⌊· + 1/2⌋`.) -/
def generateCymatics (traj : List FormantFrame) (maxPoints : ℕ) : List Point3D :=
  if traj.length = 0 then []
  else
    let avgF1 := (traj.map FormantFrame.f1).sum / (traj.length : ℝ)
    let avgF2 := (traj.map FormantFrame.f2).sum / (traj.length : ℝ)
    let avgF3 := (traj.map FormantFrame.f3).sum / (traj.length : ℝ)
    let n : ℤ := round (1 + (avgF1 / 500) * 3)
    let m : ℤ := round (1 + (avgF2 / 1500) * 4)
    let k : ℤ := round (1 + (avgF3 / 2500) * 3)
    let gridSize := (⌊Real.sqrt (maxPoints : ℝ)⌋).toNat
    let scale : ℝ := 2
    (List.range gridSize).flatMap fun (ix : ℕ) =>
      (List.range gridSize).map fun (iy : ℕ) =>
        let x := ((ix : ℝ) / ((gridSize : ℝ) - 1)) * 2 * scale - scale
        let y := ((iy : ℝ) / ((gridSize : ℝ) - 1)) * 2 * scale - scale
        let pattern1 := Real.sin ((n : ℝ) * Real.pi * x / scale) *
          Real.cos ((m : ℝ) * Real.pi * y / scale)
        let pattern2 := Real.cos ((n : ℝ) * Real.pi * x / scale) *
          Real.sin ((m : ℝ) * Real.pi * y / scale)
        let z := (pattern1 + pattern2) * Real.sin ((k : ℝ) * Real.pi * (x + y) / (2 * scale))
        ⟨x / scale, y / scale, z * 0.5,
         ((ix : ℝ) * (gridSize : ℝ) + (iy : ℝ)) / ((gridSize : ℝ) * (gridSize : ℝ))⟩

/-- Golden-ratio phase-jitter constant of the manifold generator. -/
def PHI : ℝ := 1.618033988749895

/-- √2 phase-jitter constant of the manifold generator. -/
def SQRT2 : ℝ := 1.4142135623730951

/-- JS `%` (truncated remainder) for non-negative `a` and positive `b`,
where it coincides with `a - b⌊a/b⌋` — the only case the manifold generator
uses (`frameIdx * PHI ≥ 0`, `2π > 0`). -/
def jsMod (a b : ℝ) : ℝ := a - b * (⌊a / b⌋ : ℝ)

/-- `deltaF` of the manifold loop at frame `idx`: summed absolute
frame-to-frame change, the previous frame being `traj[idx-1]`
(and `traj[0]` itself for `idx = 0`, as `prevF` is initialised to frame 0). -/
def manifoldDelta (traj : List FormantFrame) (idx : ℕ) : ℝ :=
  let fr := traj.getD idx default
  let pv := traj.getD (idx - 1) default
  |fr.f1 - pv.f1| + |fr.f2 - pv.f2| + |fr.f3 - pv.f3|

/-- Stability weight `min(1/(deltaF + 1e-3) * 0.05, 1)` of frame `idx`. -/
def manifoldWeight (traj : List FormantFrame) (idx : ℕ) : ℝ :=
  min (1 / (manifoldDelta traj idx + 1e-3) * 0.05) 1

/-- The 20-point Lissajous segment emitted for a surviving frame `idx`. -/
def manifoldSegment (traj : List FormantFrame) (idx : ℕ) : List Point3D :=
  let fr := traj.getD idx default
  let w := manifoldWeight traj idx
  let phi1 := jsMod ((idx : ℝ) * PHI) (2 * Real.pi)
  let phi2 := jsMod ((idx : ℝ) * SQRT2) (2 * Real.pi)
  (List.range 20).map fun (i : ℕ) =>
    let localT := ((i : ℝ) / 20) * 1.5 * (2 * Real.pi)
    ⟨w * Real.sin ((fr.f1 / fr.f3) * localT + phi1),
     w * Real.sin ((fr.f2 / fr.f3) * localT + phi2),
     w * Real.sin ((fr.f1 / fr.f2) * localT),
     (idx : ℝ) / (traj.length : ℝ)⟩

/-- The main frame loop of `generateLissajousManifold`, carrying
`(prevF1, prevF2, prevF3)` through the iteration exactly as the source does
(the previous formants are updated in the skip branch too). -/
def manifoldGo (traj : List FormantFrame) : ℕ → ℝ × ℝ × ℝ → List FormantFrame → List Point3D
  | _, _, [] => []
  | idx, (pF1, pF2, pF3), frame :: rest =>
    let deltaF := |frame.f1 - pF1| + |frame.f2 - pF2| + |frame.f3 - pF3|
    let stability := 1 / (deltaF + 1e-3)
    let weight := min (stability * 0.05) 1
    if weight < 0.1 then manifoldGo traj (idx + 1) (frame.f1, frame.f2, frame.f3) rest
    else
      ((List.range 20).map fun (i : ℕ) =>
        let localT := ((i : ℝ) / 20) * 1.5 * (2 * Real.pi)
        ⟨weight * Real.sin ((frame.f1 / frame.f3) * localT +
            jsMod ((idx : ℝ) * PHI) (2 * Real.pi)),
         weight * Real.sin ((frame.f2 / frame.f3) * localT +
            jsMod ((idx : ℝ) * SQRT2) (2 * Real.pi)),
         weight * Real.sin ((frame.f1 / frame.f2) * localT),
         (idx : ℝ) / (traj.length : ℝ)⟩)
        ++ manifoldGo traj (idx + 1) (frame.f1, frame.f2, frame.f3) rest

/-- `generateLissajousManifold(trajectory, maxPoints)`. -/
def generateLissajousManifold (traj : List FormantFrame) (maxPoints : ℕ) : List Point3D :=
  if traj.length < 2 then []
  else
    let first := traj.getD 0 default
    let pts := manifoldGo traj 0 (first.f1, first.f2, first.f3) traj
    if maxPoints < pts.length then stridedFilter pts (ceilDiv pts.length maxPoints) else pts

/-- The final unit-sphere normalization of `processAudio` (runs on a non-empty
point list; divides by the max radius when it is positive). -/
def unitSphereNormalize (pts : List Point3D) : List Point3D :=
  let maxR := pts.foldl (fun m p => max m (Real.sqrt (p.x * p.x + p.y * p.y + p.z * p.z))) 0
  if 0 < maxR then pts.map fun p => ⟨p.x / maxR, p.y / maxR, p.z / maxR, p.t⟩ else pts

/-- The three geometry modes of the resonance worker. -/
inductive ResMode where
  | lissajous
  | cymatics
  | lissajousManifold

/-- Geometry phase of `processAudio`: mode dispatch followed by the final
unit-sphere normalization (the formant trajectory is an input here; the claims
quantify over every trajectory). -/
def resGeometry (mode : ResMode) (traj : List FormantFrame) (maxPoints : ℕ) : List Point3D :=
  unitSphereNormalize
    (match mode with
     | .lissajous => generateLissajous traj maxPoints
     | .lissajousManifold => generateLissajousManifold traj maxPoints
     | .cymatics => generateCymatics traj maxPoints)

end RW

/-! ### lpcWorker.ts -/

namespace LPC

/-- The source's `Complex` record (named `Cx` here to avoid clashing with
Mathlib's `Complex`, which is used only to express `Math.atan2`). -/
@[ext]
structure Cx where
  re : ℝ
  im : ℝ

instance : Inhabited Cx := ⟨⟨0, 0⟩⟩

def TARGET_SAMPLE_RATE : ℕ := 10000

def LPC_ORDER : ℕ := 14

def PRE_EMPHASIS_ALPHA : ℝ := 0.97

def LAGUERRE_MAX_ITER : ℕ := 50

def LAGUERRE_EPSILON : ℝ := 1e-10

def complexAdd (a b : Cx) : Cx := ⟨a.re + b.re, a.im + b.im⟩

def complexSub (a b : Cx) : Cx := ⟨a.re - b.re, a.im - b.im⟩

def complexMul (a b : Cx) : Cx :=
  ⟨a.re * b.re - a.im * b.im, a.re * b.im + a.im * b.re⟩

/-- `complexDiv` with the source's `denom < 1e-20` guard. -/
def complexDiv (a b : Cx) : Cx :=
  let denom := b.re * b.re + b.im * b.im
  if denom < 1e-20 then ⟨0, 0⟩
  else ⟨(a.re * b.re + a.im * b.im) / denom, (a.im * b.re - a.re * b.im) / denom⟩

def complexAbs (c : Cx) : ℝ := Real.sqrt (c.re * c.re + c.im * c.im)

/-- `Math.atan2(y, x)`: the argument of the complex number `x + iy`
(range `(-π, π]`, `atan2(0, 0) = 0` — exactly `Complex.arg`). -/
def jsAtan2 (y x : ℝ) : ℝ := Complex.arg ⟨x, y⟩

def complexSqrt (c : Cx) : Cx :=
  let r := complexAbs c
  let angle := jsAtan2 c.im c.re
  ⟨Real.sqrt r * Real.cos (angle / 2), Real.sqrt r * Real.sin (angle / 2)⟩

def complexScale (c : Cx) (s : ℝ) : Cx := ⟨c.re * s, c.im * s⟩

/-- JS `Math.round` (round half towards `+∞`), as used for the decimation
ratio — coincides with Mathlib's `round = ⌊· + 1/2⌋`. -/
def jsRound (x : ℝ) : ℤ := round x

/-- Triangular window weight `1 - |j|/(filterSize + 1)`. -/
def triWeight (filterSize : ℕ) (j : ℤ) : ℝ :=
  1 - ((j.natAbs : ℝ)) / ((filterSize : ℝ) + 1)

/-- `downsample(samples, fromRate, toRate)` of lpcWorker.ts: triangular-window
low-pass followed by stride decimation.  The `idx >= 0 && idx < length`
bounds check of the source is the `if` under the sums. -/
def downsample (samples : List ℝ) (fromRate toRate : ℕ) : List ℝ :=
  if fromRate ≤ toRate then samples
  else
    let ratio := (jsRound ((fromRate : ℝ) / (toRate : ℝ))).toNat
    let filterSize := max 3 (ratio * 2)
    let filtered := fun i : ℕ =>
      let sum := ∑ j in Finset.Icc (-(filterSize : ℤ)) (filterSize : ℤ),
        if 0 ≤ (i : ℤ) + j ∧ (i : ℤ) + j < (samples.length : ℤ) then
          samples.getD ((i : ℤ) + j).toNat 0 * triWeight filterSize j
        else 0
      let count := ∑ j in Finset.Icc (-(filterSize : ℤ)) (filterSize : ℤ),
        if 0 ≤ (i : ℤ) + j ∧ (i : ℤ) + j < (samples.length : ℤ) then triWeight filterSize j
        else 0
      sum / count
    (List.range (ceilDiv samples.length ratio)).map fun i => filtered (i * ratio)

/-- `preEmphasis`: `y[0] = x[0]`, `y[n] = x[n] - α·x[n-1]`. -/
def preEmphasis (samples : List ℝ) (alpha : ℝ) : List ℝ :=
  (List.range samples.length).map fun i =>
    if i = 0 then samples.getD 0 0
    else samples.getD i 0 - alpha * samples.getD (i - 1) 0

/-- One autocorrelation entry `R[lag] = Σ_{i < n - lag} s[i]·s[i+lag]`
(the source builds the array `R[0..order]`; callers below build the
corresponding list). -/
def autocorrelation (samples : List ℝ) (lag : ℕ) : ℝ :=
  ((List.range (samples.length - lag)).map fun i =>
    samples.getD i 0 * samples.getD (i + lag) 0).sum

/-- The Levinson-Durbin main loop, iterating `i = 1..order` over the state
`(a, aPrev, E)`; arrays are modelled as functions `ℕ → ℝ`.  The update of
`a[i]` and `a[1..i-1]` only reads `aPrev`, so it is a single functional
update; the `E < 1e-10` break returns the just-updated coefficients. -/
def ldGo (R : List ℝ) (order : ℕ) : ℕ → (ℕ → ℝ) → (ℕ → ℝ) → ℝ → ℕ → ℝ
  | i, a, aPrev, E =>
    if h : order < i then a
    else
      let lambda := (R.getD i 0 - ∑ j in Finset.Ico 1 i, aPrev j * R.getD (i - j) 0) / E
      let a' := fun jj =>
        if jj = i then lambda
        else if 1 ≤ jj ∧ jj < i then aPrev jj - lambda * aPrev (i - jj)
        else a jj
      let E' := E * (1 - lambda * lambda)
      if E' < 1e-10 then a'
      else ldGo R order (i + 1) a' a' E'
termination_by i _ _ _ => order + 1 - i

/-- `levinsonDurbin(R, order)`: returns the coefficient list `a[0..order]`,
with `a = [1, 0, …, 0]` when `R[0] < 1e-10` (silent frame). -/
def levinsonDurbin (R : List ℝ) (order : ℕ) : List ℝ :=
  let a0 : ℕ → ℝ := fun j => if j = 0 then 1 else 0
  if R.getD 0 0 < 1e-10 then (List.range (order + 1)).map a0
  else (List.range (order + 1)).map (ldGo R order 1 a0 (fun _ => 0) (R.getD 0 0))

/-- Horner loop of `evaluatePolynomial` over `coeffs[1..n]`, updating
`(p, dp, d2p)` from the previous values. -/
def horner3 (x : Cx) : List ℝ → Cx × Cx × Cx → Cx × Cx × Cx
  | [], acc => acc
  | c :: rest, (p, dp, d2p) =>
    horner3 x rest
      (complexAdd (complexMul p x) ⟨c, 0⟩,
       complexAdd (complexMul dp x) p,
       complexAdd (complexMul d2p x) (complexScale dp 2))

/-- `evaluatePolynomial(coeffs, x)`: monic evaluation (leading coefficient 1)
with first and second derivative. -/
def evaluatePolynomial (coeffs : List ℝ) (x : Cx) : Cx × Cx × Cx :=
  horner3 x coeffs.tail (⟨1, 0⟩, ⟨0, 0⟩, ⟨0, 0⟩)

/-- The iteration of `laguerreRoot` with explicit fuel (50 in the source):
early return when `|p| < ε` or `|a| < ε`; nudge-and-continue when the chosen
denominator is tiny. -/
def laguerreGo (coeffs : List ℝ) : ℕ → Cx → Cx
  | 0, x => x
  | fuel + 1, x =>
    let n := coeffs.length - 1
    let e := evaluatePolynomial coeffs x
    if complexAbs e.1 < LAGUERRE_EPSILON then x
    else
      let G := complexDiv e.2.1 e.1
      let H := complexSub (complexMul G G) (complexDiv e.2.2 e.1)
      let disc := complexScale (complexSub (complexScale H (n : ℝ)) (complexMul G G))
        ((n : ℝ) - 1)
      let sqrtDisc := complexSqrt disc
      let d1 := complexAdd G sqrtDisc
      let d2 := complexSub G sqrtDisc
      let denom := if complexAbs d2 < complexAbs d1 then d1 else d2
      if complexAbs denom < LAGUERRE_EPSILON then
        laguerreGo coeffs fuel ⟨x.re + 0.01, x.im + 0.01⟩
      else
        let a := complexDiv ⟨(n : ℝ), 0⟩ denom
        let x' := complexSub x a
        if complexAbs a < LAGUERRE_EPSILON then x'
        else laguerreGo coeffs fuel x'

/-- `laguerreRoot(coeffs, x0)`. -/
def laguerreRoot (coeffs : List ℝ) (x0 : Cx) : Cx :=
  laguerreGo coeffs LAGUERRE_MAX_ITER x0

/-- The inner recurrence of `deflatePolynomialArray`:
`new[i] = coeffs[i] + realRoot * new[i-1]`. -/
def deflateGo (r : ℝ) : ℝ → List ℝ → List ℝ
  | _, [] => []
  | prev, c :: rest => (c + r * prev) :: deflateGo r (c + r * prev) rest

/-- `deflatePolynomialArray(coeffs, realRoot)`: drop the degree by one,
keeping `new[0] = coeffs[0]` (the source loops `i = 1 .. n-1`, so the last
input coefficient is not consumed). -/
def deflatePolynomialArray (coeffs : List ℝ) (realRoot : ℝ) : List ℝ :=
  match coeffs with
  | [] => []
  | c0 :: rest => c0 :: deflateGo realRoot c0 rest.dropLast

/-- The root loop of `findAllRoots`: `n` Laguerre searches seeded on the
0.9-radius circle, with simplified real-root deflation (`|im| < 0.01`). -/
def findAllRootsGo (origN : ℕ) : ℕ → List ℝ → List Cx
  | i, cur =>
    if h : origN ≤ i then []
    else
      let angle := 2 * Real.pi * (i : ℝ) / (origN : ℝ)
      let x0 : Cx := ⟨0.9 * Real.cos angle, 0.9 * Real.sin angle⟩
      let root := laguerreRoot cur x0
      let cur' := if |root.im| < 0.01 then deflatePolynomialArray cur root.re else cur
      root :: findAllRootsGo origN (i + 1) cur'
termination_by i _ => origN - i

/-- `findAllRoots(coeffs)`. -/
def findAllRoots (coeffs : List ℝ) : List Cx :=
  findAllRootsGo (coeffs.length - 1) 0 coeffs

/-- The root filter of `rootsToFormants`: magnitude in `(0.5, 0.99)`, positive
imaginary part, frequency in `[200, 4000]` Hz, bandwidth in `(20, 500)` Hz. -/
def survivingFormants (roots : List Cx) (sampleRate : ℕ) : List (ℝ × ℝ) :=
  roots.filterMap fun root =>
    let magnitude := complexAbs root
    if magnitude < 0.99 ∧ 0.5 < magnitude ∧ 0.01 < root.im then
      let angle := jsAtan2 root.im root.re
      let freq := |angle| * (sampleRate : ℝ) / (2 * Real.pi)
      let bandwidth := -Real.log magnitude * (sampleRate : ℝ) / Real.pi
      if 200 ≤ freq ∧ freq ≤ 4000 ∧ 20 < bandwidth ∧ bandwidth < 500 then
        some (freq, bandwidth)
      else none
    else none

/-- `rootsToFormants(roots, sampleRate)`: survivors sorted by frequency; the
three lowest become `(F1, F2, F3)` and `(B1, B2, B3)`, missing slots taking
the defaults 500/1500/2500 Hz and 80/100/120 Hz (JS `?？` is plain `getD`). -/
def rootsToFormants (roots : List Cx) (sampleRate : ℕ) : (ℝ × ℝ × ℝ) × (ℝ × ℝ × ℝ) :=
  let sorted := List.insertionSort (fun a b : ℝ × ℝ => a.1 ≤ b.1)
    (survivingFormants roots sampleRate)
  (((sorted.get? 0).map Prod.fst |>.getD 500,
    (sorted.get? 1).map Prod.fst |>.getD 1500,
    (sorted.get? 2).map Prod.fst |>.getD 2500),
   ((sorted.get? 0).map Prod.snd |>.getD 80,
    (sorted.get? 1).map Prod.snd |>.getD 100,
    (sorted.get? 2).map Prod.snd |>.getD 120))

/-- Traunmüller Bark conversion. -/
def hzToBark (hz : ℝ) : ℝ := 26.81 * hz / (1960 + hz) - 0.53

/-- `formantDispersion(f1, f2, f3) = (f3 - f1) / 2`. -/
def formantDispersion (f1 f2 f3 : ℝ) : ℝ := (f3 - f1) / 2

def GLOBAL_MIN_BARK : ℝ := 1

def GLOBAL_MAX_BARK : ℝ := 18

def GLOBAL_MIN_THICKNESS : ℝ := 0.3

def GLOBAL_MAX_THICKNESS : ℝ := 1.5

/-- Map a Bark value into the fixed global vowel space `[-1, 1]`. -/
def mapToGlobalVowelSpace (barkValue : ℝ) : ℝ :=
  ((barkValue - GLOBAL_MIN_BARK) / (GLOBAL_MAX_BARK - GLOBAL_MIN_BARK)) * 2 - 1

/-- `LPCFormantFrame`. -/
structure LPCFrame where
  time : ℝ
  f1 : ℝ
  f2 : ℝ
  f3 : ℝ
  b1 : ℝ
  b2 : ℝ
  b3 : ℝ
  dispersion : ℝ

instance : Inhabited LPCFrame := ⟨⟨0, 0, 0, 0, 0, 0, 0, 0⟩⟩

/-- `LPCPoint3D` (a `Point3D` plus opacity). -/
structure LPCPoint where
  x : ℝ
  y : ℝ
  z : ℝ
  t : ℝ
  opacity : ℝ

/-- `generateLPCVowelSpace(trajectory, maxPoints)`. -/
def generateLPCVowelSpace (traj : List LPCFrame) (maxPoints : ℕ) : List LPCPoint :=
  if traj.length = 0 then []
  else
    let dispersions := traj.map LPCFrame.dispersion
    let minD := dispersions.min?.getD 0
    let maxD := dispersions.max?.getD 0
    let dispersionRange := maxD - minD + 1e-6
    let pts := (List.range traj.length).map fun (i : ℕ) =>
      let frame := traj.getD i default
      let barkF1 := hzToBark frame.f1
      let barkF2 := hzToBark frame.f2
      let thickness := (frame.b1 + frame.b2) / 200
      let zRaw := (thickness - GLOBAL_MIN_THICKNESS) / (GLOBAL_MAX_THICKNESS - GLOBAL_MIN_THICKNESS)
      LPCPoint.mk (mapToGlobalVowelSpace barkF2) (-(mapToGlobalVowelSpace barkF1))
        ((max 0 (min 1 zRaw) * 2 - 1) * 0.4)
        ((i : ℝ) / (traj.length : ℝ))
        (0.2 + 0.8 * (frame.dispersion - minD) / dispersionRange)
    if maxPoints < pts.length then stridedFilter pts (ceilDiv pts.length maxPoints) else pts

/-- `processAudio(samples, sampleRate, windowMs, maxPoints)` of lpcWorker.ts,
returning `(points, formantTrajectory)`.  The windowed loop
`for (start = 0; start + windowSamples <= len; start += hop)` yields
`(len - ws)/hop + 1` frames when `ws ≤ len`; when `hopSamples = 0`
(`windowMs` under 0.2 ms) the source loop would not terminate, modelled here
as producing no frames. -/
def processAudio (samples : List ℝ) (sampleRate : ℕ) (windowMs : ℝ) (maxPoints : ℕ) :
    List LPCPoint × List LPCFrame :=
  let downsampled := downsample samples sampleRate TARGET_SAMPLE_RATE
  let emphasized := preEmphasis downsampled PRE_EMPHASIS_ALPHA
  let windowSamples := (⌊windowMs / 1000 * (TARGET_SAMPLE_RATE : ℝ)⌋).toNat
  let hopSamples := windowSamples / 2
  let numFrames :=
    if hopSamples = 0 then 0
    else if emphasized.length < windowSamples then 0
    else (emphasized.length - windowSamples) / hopSamples + 1
  let traj := (List.range numFrames).map fun fi =>
    let start : ℕ := fi * hopSamples
    let window := (List.range windowSamples).map fun (i : ℕ) =>
      let hanning := 0.5 * (1 - Real.cos (2 * Real.pi * (i : ℝ) / (windowSamples : ℝ)))
      emphasized.getD (start + i : ℕ) 0 * hanning
    let R := (List.range (LPC_ORDER + 1)).map fun lag => autocorrelation window lag
    let lpcCoeffs := levinsonDurbin R LPC_ORDER
    let roots := findAllRoots lpcCoeffs
    let fb := rootsToFormants roots TARGET_SAMPLE_RATE
    let time := ((start : ℝ) + (windowSamples : ℝ) / 2) / (emphasized.length : ℝ)
    LPCFrame.mk time fb.1.1 fb.1.2.1 fb.1.2.2 fb.2.1 fb.2.2.1 fb.2.2.2
      (formantDispersion fb.1.1 fb.1.2.1 fb.1.2.2)
  (generateLPCVowelSpace traj maxPoints, traj)

/-- Interpretation of the source's complex pairs in `ℂ` (proof-side only). -/
def toC (c : Cx) : ℂ := ⟨c.re, c.im⟩

/-- Pair-level power with the multiplication order of the Horner loop. -/
def cpow (x : Cx) : ℕ → Cx
  | 0 => ⟨1, 0⟩
  | k + 1 => complexMul (cpow x k) x

/-- `re² + im²`, the squared magnitude of a pair. -/
def normSqCx (c : Cx) : ℝ := c.re * c.re + c.im * c.im

end LPC

/-! Order-relation facts for the two comparator sorts
(`(a, b) => b.prominence - a.prominence` and `(a, b) => a.freq - b.freq`). -/

instance : IsTotal RW.Peak (fun a b => b.prominence ≤ a.prominence) :=
  ⟨fun a b => le_total b.prominence a.prominence⟩

instance : IsTrans RW.Peak (fun a b => b.prominence ≤ a.prominence) :=
  ⟨fun _ _ _ hab hbc => le_trans hbc hab⟩

instance : IsTotal (ℝ × ℝ) (fun a b => a.1 ≤ b.1) :=
  ⟨fun a b => le_total a.1 b.1⟩

instance : IsTrans (ℝ × ℝ) (fun a b => a.1 ≤ b.1) :=
  ⟨fun _ _ _ hab hbc => le_trans hab hbc⟩

/-! ## Theorems -/

/-! ### List infrastructure -/

theorem filterIdx_length (p : ℕ → Bool) (l : List α) :
    ∀ c, (filterIdx p c l).length = (List.range l.length).countP (fun i => p (c + i)) := by
  induction l with
  | nil => intro c; simp [filterIdx]
  | cons a as ih =>
    intro c
    rw [show (a :: as).length = as.length + 1 from rfl, List.range_succ_eq_map]
    simp only [filterIdx, List.countP_cons, List.countP_map]
    rw [show (List.range as.length).countP ((fun i => p (c + i)) ∘ Nat.succ)
        = (List.range as.length).countP (fun i => p (c + 1 + i)) from
      List.countP_congr (fun i _ => by simp [Function.comp, Nat.succ_eq_add_one]; ring_nf)]
    by_cases h : p c
    · simp [h, ih (c + 1)]
    · simp [h, ih (c + 1)]

theorem succ_ceil_aux (step n : ℕ) (hs : 0 < step) :
    (n + step) / step = (n + step - 1) / step + (if n % step = 0 then 1 else 0) := by
  obtain ⟨q, r, hr, hn⟩ : ∃ q r, r < step ∧ n = step * q + r :=
    ⟨n / step, n % step, Nat.mod_lt _ hs, (Nat.div_add_mod n step).symm⟩
  subst hn
  have hmod : (step * q + r) % step = r := by
    rw [Nat.mul_add_mod, Nat.mod_eq_of_lt hr]
  rw [hmod]
  rcases Nat.eq_zero_or_pos r with rfl | hrpos
  · have h1 : (step * q + 0 + step) / step = 0 + (q + 1) := by
      rw [show step * q + 0 + step = 0 + step * (q + 1) by ring, Nat.add_mul_div_left _ _ hs,
        Nat.zero_div]
    have h2 : (step * q + 0 + step - 1) / step = 0 + q := by
      rw [show step * q + 0 + step - 1 = (step - 1) + step * q by omega,
        Nat.add_mul_div_left _ _ hs, Nat.div_eq_of_lt (by omega)]
    rw [if_pos rfl, h1, h2]
    omega
  · have h1 : (step * q + r + step) / step = 0 + (q + 1) := by
      rw [show step * q + r + step = r + step * (q + 1) by ring, Nat.add_mul_div_left _ _ hs,
        Nat.div_eq_of_lt hr]
    have h2 : (step * q + r + step - 1) / step = 0 + (q + 1) := by
      rw [show step * q + r + step - 1 = (r - 1) + step * (q + 1) by
            rw [Nat.mul_add, Nat.mul_one]; omega,
        Nat.add_mul_div_left _ _ hs, Nat.div_eq_of_lt (by omega)]
    rw [if_neg (by omega), h1, h2]
    omega

theorem countP_range_mod (step n : ℕ) (hs : 0 < step) :
    (List.range n).countP (fun i => i % step == 0) = (n + step - 1) / step := by
  induction n with
  | zero =>
    simp only [List.range_zero, List.countP_nil, Nat.zero_add]
    rw [Nat.div_eq_of_lt (by omega)]
  | succ n ih =>
    rw [List.range_succ, List.countP_append, ih,
      show n + 1 + step - 1 = n + step by omega, succ_ceil_aux step n hs]
    simp only [List.countP_cons, List.countP_nil]
    by_cases h : n % step = 0
    · simp [h]
    · simp [h]

theorem stridedFilter_length (l : List α) (step : ℕ) (hs : 0 < step) :
    (stridedFilter l step).length = (l.length + step - 1) / step := by
  rw [stridedFilter, filterIdx_length]
  simp only [Nat.zero_add]
  exact countP_range_mod step l.length hs

/-- The decimated length is within the cap: if `s = ⌈L/M⌉` with `L > M ≥ 1`
then `⌈L/s⌉ ≤ M`. -/
theorem ceil_stride_le (L M s : ℕ) (hM : 1 ≤ M) (hL : M < L) (hs : s = ceilDiv L M) :
    (L + s - 1) / s ≤ M := by
  have hMM : (M + M) / M = 0 + 2 := by
    rw [show M + M = 0 + M * 2 by ring, Nat.add_mul_div_left _ _ (by omega), Nat.zero_div]
  have hmono : (M + M) / M ≤ (L + M - 1) / M := Nat.div_le_div_right (by omega)
  have hs2 : 2 ≤ s := by rw [hs]; unfold ceilDiv; omega
  have hdm := Nat.div_add_mod (L + M - 1) M
  have hmlt : (L + M - 1) % M < M := Nat.mod_lt _ (by omega)
  have hsM : M * s = M * ((L + M - 1) / M) := by rw [hs]; rfl
  have hLs : L ≤ s * M := by
    rw [Nat.mul_comm s M, hsM]
    omega
  have hkey : (s * M + s - 1) / s = 0 + M := by
    rw [show s * M + s - 1 = (s - 1) + s * M by omega, Nat.add_mul_div_left _ _ (by omega),
      Nat.div_eq_of_lt (by omega)]
  have := Nat.div_le_div_right (c := s) (show L + s - 1 ≤ s * M + s - 1 by omega)
  omega

theorem filterIdx_sublist (p : ℕ → Bool) (l : List α) :
    ∀ c, ∀ a ∈ filterIdx p c l, a ∈ l := by
  induction l with
  | nil => intro c a h; simp [filterIdx] at h
  | cons x xs ih =>
    intro c a h
    simp only [filterIdx] at h
    by_cases hc : p c
    · rw [if_pos hc] at h
      rcases h with _ | h
      · exact List.mem_cons_self _ _
      · exact List.mem_cons_of_mem _ (ih (c + 1) a (by assumption))
    · rw [if_neg hc] at h
      exact List.mem_cons_of_mem _ (ih (c + 1) a h)

theorem filterIdx_append (p : ℕ → Bool) (l₁ l₂ : List α) :
    ∀ c, filterIdx p c (l₁ ++ l₂) = filterIdx p c l₁ ++ filterIdx p (c + l₁.length) l₂ := by
  induction l₁ with
  | nil => intro c; simp [filterIdx]
  | cons a as ih =>
    intro c
    have harg : c + (a :: as).length = c + 1 + as.length := by
      simp only [List.length_cons]; omega
    by_cases hc : p c
    · rw [List.cons_append,
        show filterIdx p c (a :: (as ++ l₂)) = a :: filterIdx p (c + 1) (as ++ l₂) from by
          simp [filterIdx, hc],
        ih (c + 1),
        show filterIdx p c (a :: as) = a :: filterIdx p (c + 1) as from by simp [filterIdx, hc],
        List.cons_append, harg]
    · rw [List.cons_append,
        show filterIdx p c (a :: (as ++ l₂)) = filterIdx p (c + 1) (as ++ l₂) from by
          simp [filterIdx, hc],
        ih (c + 1),
        show filterIdx p c (a :: as) = filterIdx p (c + 1) as from by simp [filterIdx, hc],
        harg]

theorem filterIdx_map_range (p : ℕ → Bool) (f : ℕ → α) :
    ∀ k c, filterIdx p c ((List.range k).map f)
      = ((List.range k).filter (fun i => p (c + i))).map f := by
  intro k
  induction k with
  | zero => intro c; simp [filterIdx]
  | succ k ih =>
    intro c
    rw [List.range_succ, List.map_append, filterIdx_append, ih c, List.filter_append,
      List.map_append, List.length_map, List.length_range]
    congr 1
    simp only [List.map_cons, List.map_nil, List.filter_cons, filterIdx, List.filter_nil]
    by_cases hc : p (c + k)
    · rw [if_pos hc, if_pos (by simpa using hc)]
      simp [filterIdx]
    · rw [if_neg hc, if_neg (by simpa using hc)]
      simp

/-! ### phaseSpaceWorker.ts / phaseSpaceEmbedding.ts

`takensEmbedding`, `normalizeManifold`, `applySmoothing` and `downsample` appear
with identical bodies in both files; they are embedded once below. -/

/-- `getD` of a mapped range evaluates the generating function. -/
theorem getD_map_range (f : ℕ → α) (d : α) (k t : ℕ) (h : t < k) :
    ((List.range k).map f).getD t d = f t := by
  rw [List.getD_eq_getElem?_getD, List.getElem?_map, List.getElem?_range h]
  rfl

/-! ### C3: Takens embedding length and contents -/

/-- C3: `takensEmbedding(signal, tau)` returns exactly `max(0, n − 2τ)` points,
the point at index `t` being `(s[t], s[t+τ], s[t+2τ], t)`; in particular a
signal of length exactly `2τ` yields the empty array. -/
theorem C3_takensEmbedding_spec (signal : List ℝ) (tau : ℕ) :
    ((PS.takensEmbedding signal tau).length : ℤ)
      = max 0 ((signal.length : ℤ) - 2 * (tau : ℤ)) ∧
    ∀ t : ℕ, t < (PS.takensEmbedding signal tau).length →
      (PS.takensEmbedding signal tau).getD t default
        = ⟨signal.getD t 0, signal.getD (t + tau) 0, signal.getD (t + 2 * tau) 0, (t : ℝ)⟩ := by
  unfold PS.takensEmbedding
  by_cases h : signal.length < 2 * tau + 1
  · rw [if_pos h]
    refine ⟨?_, ?_⟩
    · rw [max_eq_left (by omega : (signal.length : ℤ) - 2 * (tau : ℤ) ≤ 0)]
      simp
    · intro t ht
      simp at ht
  · rw [if_neg h]
    refine ⟨?_, ?_⟩
    · rw [max_eq_right (by omega : (0 : ℤ) ≤ (signal.length : ℤ) - 2 * (tau : ℤ))]
      simp only [List.length_map, List.length_range]
      omega
    · intro t ht
      simp only [List.length_map, List.length_range] at ht
      rw [getD_map_range _ _ _ _ ht]

/-- Witness for C3 at `signal = [1,2,3,4,5]`, `τ = 1`: three points, the one at
index 2 being `(3, 4, 5, 2)`. -/
theorem C3_takensEmbedding_spec_witness :
    ((PS.takensEmbedding [1, 2, 3, 4, 5] 1).length : ℤ) = 3 ∧
    (PS.takensEmbedding [1, 2, 3, 4, 5] 1).getD 2 default = ⟨3, 4, 5, 2⟩ := by
  obtain ⟨hlen, hget⟩ := C3_takensEmbedding_spec [1, 2, 3, 4, 5] 1
  have hlen3 : ((PS.takensEmbedding [1, 2, 3, 4, 5] 1).length : ℤ) = 3 := by
    rw [hlen]
    norm_num
  refine ⟨hlen3, ?_⟩
  have h2 : 2 < (PS.takensEmbedding [1, 2, 3, 4, 5] 1).length := by
    omega
  rw [hget 2 h2]
  norm_num [List.getD]

/-! ### Normalization lemmas (C4, C9) -/

theorem sum_map_sub_const (l : List ℝ) (c : ℝ) :
    (l.map (fun x => x - c)).sum = l.sum - l.length * c := by
  induction l with
  | nil => simp
  | cons a as ih =>
    simp only [List.map_cons, List.sum_cons, List.length_cons, ih]
    push_cast
    ring

theorem sum_map_div_const (l : List ℝ) (R : ℝ) :
    (l.map (fun x => x / R)).sum = l.sum / R := by
  induction l with
  | nil => simp
  | cons a as ih =>
    simp only [List.map_cons, List.sum_cons, ih]
    ring

theorem foldl_max_div_real (l : List ℝ) (R : ℝ) (hR : 0 < R) :
    ∀ init, (l.map (fun r => r / R)).foldl max (init / R) = l.foldl max init / R := by
  induction l with
  | nil => intro init; rfl
  | cons a as ih =>
    intro init
    simp only [List.map_cons, List.foldl_cons]
    rw [max_div_div_right hR.le, ih]

/-- `maxRadius` as a fold over the list of radii. -/
theorem maxRadius_eq_foldl (ps : List Point3D) (c : ℝ × ℝ × ℝ) :
    PS.maxRadius ps c = (ps.map (PS.ptRadius c)).foldl max 0 := by
  rw [List.foldl_map]
  rfl

/-- Radius about the origin of a point scaled by `1/R`. -/
theorem ptRadius_scale (x y z t : ℝ) (R : ℝ) (hR : 0 < R) :
    PS.ptRadius (0, 0, 0) (Point3D.mk (x / R) (y / R) (z / R) t)
      = PS.ptRadius (0, 0, 0) (Point3D.mk x y z t) / R := by
  unfold PS.ptRadius
  simp only [sub_zero]
  rw [show x / R * (x / R) + y / R * (y / R) + z / R * (z / R)
      = (x * x + y * y + z * z) / (R * R) by field_simp]
  rw [Real.sqrt_div (by nlinarith [sq_nonneg x, sq_nonneg y, sq_nonneg z]),
    Real.sqrt_mul_self hR.le]

/-- Radius of a centered point about the origin is radius about the centroid. -/
theorem ptRadius_center (c : ℝ × ℝ × ℝ) (p : Point3D) :
    PS.ptRadius (0, 0, 0) (Point3D.mk (p.x - c.1) (p.y - c.2.1) (p.z - c.2.2) p.t)
      = PS.ptRadius c p := by
  unfold PS.ptRadius
  simp

/-- Closed form of `normalizeManifold` when the max radius is nonzero. -/
theorem normalizeManifold_eq_map (ps : List Point3D) (h : ps ≠ [])
    (hR : PS.maxRadius ps (PS.centroid3 ps) ≠ 0) :
    PS.normalizeManifold ps
      = ps.map (fun p => Point3D.mk
          ((p.x - (PS.centroid3 ps).1) / PS.maxRadius ps (PS.centroid3 ps))
          ((p.y - (PS.centroid3 ps).2.1) / PS.maxRadius ps (PS.centroid3 ps))
          ((p.z - (PS.centroid3 ps).2.2) / PS.maxRadius ps (PS.centroid3 ps))
          p.t) := by
  match ps, h with
  | a :: as, _ =>
    simp only [PS.normalizeManifold]
    rw [if_neg hR, List.map_map]
    rfl

/-- `normalizeManifold` preserves the point count. -/
theorem normalizeManifold_length (ps : List Point3D) :
    (PS.normalizeManifold ps).length = ps.length := by
  cases ps with
  | nil => rfl
  | cons a as =>
    simp only [PS.normalizeManifold]
    by_cases hR : PS.maxRadius (a :: as) (PS.centroid3 (a :: as)) = 0
    · rw [if_pos hR]
      simp
    · rw [if_neg hR]
      simp

/-- One centroid component of a centered-and-scaled coordinate list is zero. -/
theorem comp_centroid (l : List ℝ) (R n : ℝ) (hn : n ≠ 0) (hln : (l.length : ℝ) = n) :
    (l.map (fun v => (v - l.sum / n) / R)).sum / n = 0 := by
  rw [show (l.map (fun v => (v - l.sum / n) / R))
      = (l.map (fun v => v - l.sum / n)).map (fun v => v / R) from by
        rw [List.map_map]; rfl,
    sum_map_div_const, sum_map_sub_const, hln]
  have h0 : l.sum - n * (l.sum / n) = 0 := by field_simp
  rw [h0, zero_div, zero_div]

/-- After `normalizeManifold` (nonzero max radius) the centroid is the origin
and the max radius about the origin is exactly 1. -/
theorem normalizeManifold_spec (ps : List Point3D)
    (hR : 0 < PS.maxRadius ps (PS.centroid3 ps)) :
    PS.centroid3 (PS.normalizeManifold ps) = (0, 0, 0) ∧
    PS.maxRadius (PS.normalizeManifold ps) (0, 0, 0) = 1 ∧
    PS.normalizeManifold ps ≠ [] := by
  have hne : ps ≠ [] := by
    intro hnil
    rw [hnil] at hR
    simp [PS.maxRadius] at hR
  have hlen : (0 : ℝ) < (ps.length : ℝ) := by
    have := List.length_pos.mpr hne
    exact_mod_cast this
  set c := PS.centroid3 ps with hc
  set R := PS.maxRadius ps c with hRdef
  have hbig := normalizeManifold_eq_map ps hne hR.ne'
  rw [← hc, ← hRdef] at hbig
  refine ⟨?_, ?_, ?_⟩
  · -- centroid of the normalized cloud is the origin
    rw [hbig]
    unfold PS.centroid3
    simp only [List.map_map, List.length_map]
    have hx : ps.map (Point3D.x ∘ fun p => Point3D.mk ((p.x - c.1) / R)
        ((p.y - c.2.1) / R) ((p.z - c.2.2) / R) p.t)
        = (ps.map Point3D.x).map (fun v => (v - c.1) / R) := by
      rw [List.map_map]
      rfl
    have hy : ps.map (Point3D.y ∘ fun p => Point3D.mk ((p.x - c.1) / R)
        ((p.y - c.2.1) / R) ((p.z - c.2.2) / R) p.t)
        = (ps.map Point3D.y).map (fun v => (v - c.2.1) / R) := by
      rw [List.map_map]
      rfl
    have hz : ps.map (Point3D.z ∘ fun p => Point3D.mk ((p.x - c.1) / R)
        ((p.y - c.2.1) / R) ((p.z - c.2.2) / R) p.t)
        = (ps.map Point3D.z).map (fun v => (v - c.2.2) / R) := by
      rw [List.map_map]
      rfl
    have hc1 : c.1 = (ps.map Point3D.x).sum / ((ps.length : ℕ) : ℝ) := by
      rw [hc]
      rfl
    have hc2 : c.2.1 = (ps.map Point3D.y).sum / ((ps.length : ℕ) : ℝ) := by
      rw [hc]
      rfl
    have hc3 : c.2.2 = (ps.map Point3D.z).sum / ((ps.length : ℕ) : ℝ) := by
      rw [hc]
      rfl
    have gx := comp_centroid (ps.map Point3D.x) R (ps.length : ℝ) hlen.ne'
      (by rw [List.length_map])
    have gy := comp_centroid (ps.map Point3D.y) R (ps.length : ℝ) hlen.ne'
      (by rw [List.length_map])
    have gz := comp_centroid (ps.map Point3D.z) R (ps.length : ℝ) hlen.ne'
      (by rw [List.length_map])
    rw [hx, hy, hz, hc1, hc2, hc3]
    simp only [Prod.mk.injEq]
    exact ⟨gx, gy, gz⟩
  · -- max radius about the origin is 1
    rw [hbig, maxRadius_eq_foldl, List.map_map]
    have hpt : ∀ p ∈ ps, (PS.ptRadius (0, 0, 0) ∘ fun p => Point3D.mk ((p.x - c.1) / R)
        ((p.y - c.2.1) / R) ((p.z - c.2.2) / R) p.t) p = PS.ptRadius c p / R := by
      intro p _
      show PS.ptRadius (0, 0, 0) (Point3D.mk ((p.x - c.1) / R) ((p.y - c.2.1) / R)
        ((p.z - c.2.2) / R) p.t) = _
      rw [ptRadius_scale (p.x - c.1) (p.y - c.2.1) (p.z - c.2.2) p.t R hR,
        ptRadius_center c p]
    rw [List.map_congr_left hpt,
      show ps.map (fun p => PS.ptRadius c p / R)
        = (ps.map (PS.ptRadius c)).map (fun r => r / R) from by rw [List.map_map]; rfl]
    have hfold := foldl_max_div_real (ps.map (PS.ptRadius c)) R hR 0
    rw [zero_div] at hfold
    rw [hfold, ← maxRadius_eq_foldl, ← hRdef, div_self hR.ne']
  · -- non-empty
    rw [hbig]
    simp [hne]

/-! ### C9: idempotence of normalizeManifold -/

/-- C9: `normalizeManifold` is idempotent in exact real arithmetic: for any
point set whose max radius about its centroid is positive,
`normalizeManifold (normalizeManifold P) = normalizeManifold P` (the output
already has centroid 0 and max radius 1, so the second pass is the identity). -/
theorem C9_normalizeManifold_idempotent (P : List Point3D)
    (hR : 0 < PS.maxRadius P (PS.centroid3 P)) :
    PS.normalizeManifold (PS.normalizeManifold P) = PS.normalizeManifold P := by
  obtain ⟨hc, hm, hne⟩ := normalizeManifold_spec P hR
  have hrad : PS.maxRadius (PS.normalizeManifold P)
      (PS.centroid3 (PS.normalizeManifold P)) ≠ 0 := by
    rw [hc, hm]
    norm_num
  rw [normalizeManifold_eq_map _ hne hrad, hc, hm]
  have hid : (fun p : Point3D => Point3D.mk ((p.x - (0, (0 : ℝ), (0 : ℝ)).1) / 1)
      ((p.y - ((0 : ℝ), (0 : ℝ), (0 : ℝ)).2.1) / 1)
      ((p.z - ((0 : ℝ), (0 : ℝ), (0 : ℝ)).2.2) / 1) p.t) = id := by
    funext p
    ext <;> simp
  rw [hid, List.map_id]

/-- Witness for C9 at the two-point cloud `{(1,0,0), (-1,0,0)}` (max radius 1). -/
theorem C9_normalizeManifold_idempotent_witness :
    PS.normalizeManifold (PS.normalizeManifold [⟨1, 0, 0, 0⟩, ⟨-1, 0, 0, 1⟩])
      = PS.normalizeManifold [⟨1, 0, 0, 0⟩, ⟨-1, 0, 0, 1⟩] := by
  apply C9_normalizeManifold_idempotent
  have hcen : PS.centroid3 [(⟨1, 0, 0, 0⟩ : Point3D), ⟨-1, 0, 0, 1⟩] = (0, 0, 0) := by
    unfold PS.centroid3
    norm_num
  unfold PS.maxRadius
  rw [hcen]
  unfold PS.ptRadius
  simp only [List.foldl_cons, List.foldl_nil]
  have h1 : Real.sqrt (((⟨1, 0, 0, 0⟩ : Point3D).x - 0) * ((⟨1, 0, 0, 0⟩ : Point3D).x - 0)
      + ((⟨1, 0, 0, 0⟩ : Point3D).y - 0) * ((⟨1, 0, 0, 0⟩ : Point3D).y - 0)
      + ((⟨1, 0, 0, 0⟩ : Point3D).z - 0) * ((⟨1, 0, 0, 0⟩ : Point3D).z - 0)) = 1 := by
    norm_num
  have h2 : Real.sqrt (((⟨-1, 0, 0, 1⟩ : Point3D).x - 0) * ((⟨-1, 0, 0, 1⟩ : Point3D).x - 0)
      + ((⟨-1, 0, 0, 1⟩ : Point3D).y - 0) * ((⟨-1, 0, 0, 1⟩ : Point3D).y - 0)
      + ((⟨-1, 0, 0, 1⟩ : Point3D).z - 0) * ((⟨-1, 0, 0, 1⟩ : Point3D).z - 0)) = 1 := by
    norm_num
  rw [h1, h2]
  norm_num

/-! ### C4: bounds after normalization in the signal-dynamics pipeline -/

/-- C4 (amended): in the signal-dynamics pipeline with `normalize = true`, if
smoothing is 0, the embedded cloud fits under the `maxPoints` cap, and its max
radius about its centroid is positive, then the returned points have maximum
Euclidean norm exactly 1 and centroid exactly the origin.  (The claim as
stated — for *every* smoothing and `maxPoints` — fails: smoothing and stride
decimation run *after* normalization, see `C4_counterexample`.) -/
theorem C4_normalize_bounds (samples : List ℝ) (sampleRate tau : ℕ)
    (autoTau preprocess doPCA : Bool) (maxPoints : ℕ)
    (hR : 0 < PS.maxRadius (PS.sdEmbed samples sampleRate tau autoTau preprocess doPCA)
        (PS.centroid3 (PS.sdEmbed samples sampleRate tau autoTau preprocess doPCA)))
    (hcap : (PS.sdEmbed samples sampleRate tau autoTau preprocess doPCA).length ≤ maxPoints) :
    PS.maxRadius
        (PS.signalDynamics samples sampleRate tau autoTau 0 true preprocess doPCA maxPoints).1
        (0, 0, 0) = 1 ∧
    PS.centroid3
        (PS.signalDynamics samples sampleRate tau autoTau 0 true preprocess doPCA maxPoints).1
      = (0, 0, 0) := by
  obtain ⟨hc, hm, _⟩ := normalizeManifold_spec _ hR
  have hout : (PS.signalDynamics samples sampleRate tau autoTau 0 true preprocess doPCA
      maxPoints).1 = PS.normalizeManifold
        (PS.sdEmbed samples sampleRate tau autoTau preprocess doPCA) := by
    unfold PS.signalDynamics
    simp only [if_true, lt_irrefl, if_false]
    rw [if_neg (by rw [normalizeManifold_length]; omega)]
  rw [hout]
  exact ⟨hm, hc⟩

/-- Witness for C4 at `samples = [0,0,0,12]`, `τ = 1`, `maxPoints = 10`
(two embedded points, max radius 6 > 0, cap not exceeded). -/
theorem C4_normalize_bounds_witness :
    PS.maxRadius (PS.signalDynamics [0, 0, 0, 12] 44100 1 false 0 true false false 10).1
      (0, 0, 0) = 1 ∧
    PS.centroid3 (PS.signalDynamics [0, 0, 0, 12] 44100 1 false 0 true false false 10).1
      = (0, 0, 0) := by
  have hemb : PS.sdEmbed [0, 0, 0, 12] 44100 1 false false false
      = [⟨0, 0, 0, 0⟩, ⟨0, 0, 12, 1⟩] := by
    unfold PS.sdEmbed PS.sdPreprocess PS.sdTau PS.takensEmbedding
    norm_num
    rw [show List.range 2 = [0, 1] from rfl]
    norm_num
  apply C4_normalize_bounds
  · rw [hemb]
    have hcen : PS.centroid3 [(⟨0, 0, 0, 0⟩ : Point3D), ⟨0, 0, 12, 1⟩] = (0, 0, 6) := by
      unfold PS.centroid3
      norm_num
    unfold PS.maxRadius
    rw [hcen]
    unfold PS.ptRadius
    simp only [List.foldl_cons, List.foldl_nil]
    have h1 : Real.sqrt (((⟨0, 0, 0, 0⟩ : Point3D).x - 0) * ((⟨0, 0, 0, 0⟩ : Point3D).x - 0)
        + ((⟨0, 0, 0, 0⟩ : Point3D).y - 0) * ((⟨0, 0, 0, 0⟩ : Point3D).y - 0)
        + ((⟨0, 0, 0, 0⟩ : Point3D).z - 6) * ((⟨0, 0, 0, 0⟩ : Point3D).z - 6)) = 6 := by
      rw [show ((⟨0, 0, 0, 0⟩ : Point3D).x - 0) * ((⟨0, 0, 0, 0⟩ : Point3D).x - 0)
        + ((⟨0, 0, 0, 0⟩ : Point3D).y - 0) * ((⟨0, 0, 0, 0⟩ : Point3D).y - 0)
        + ((⟨0, 0, 0, 0⟩ : Point3D).z - 6) * ((⟨0, 0, 0, 0⟩ : Point3D).z - 6) = 6 ^ 2 by
          norm_num]
      exact Real.sqrt_sq (by norm_num)
    have h2 : Real.sqrt (((⟨0, 0, 12, 1⟩ : Point3D).x - 0) * ((⟨0, 0, 12, 1⟩ : Point3D).x - 0)
        + ((⟨0, 0, 12, 1⟩ : Point3D).y - 0) * ((⟨0, 0, 12, 1⟩ : Point3D).y - 0)
        + ((⟨0, 0, 12, 1⟩ : Point3D).z - 6) * ((⟨0, 0, 12, 1⟩ : Point3D).z - 6)) = 6 := by
      rw [show ((⟨0, 0, 12, 1⟩ : Point3D).x - 0) * ((⟨0, 0, 12, 1⟩ : Point3D).x - 0)
        + ((⟨0, 0, 12, 1⟩ : Point3D).y - 0) * ((⟨0, 0, 12, 1⟩ : Point3D).y - 0)
        + ((⟨0, 0, 12, 1⟩ : Point3D).z - 6) * ((⟨0, 0, 12, 1⟩ : Point3D).z - 6) = 6 ^ 2 by
          norm_num]
      exact Real.sqrt_sq (by norm_num)
    rw [h1, h2]
    norm_num
  · rw [hemb]
    norm_num

/-- C4 counterexample: signal `[0,0,0,0,12]`, `τ = 1`, normalize=true,
smoothing = 0, `maxPoints = 1`.  The embedding has 3 points; after
normalization the stride decimation (step 3) keeps only the first point
`(0, 0, -1/2)`, so the returned array has max norm `1/2 ≠ 1` and centroid
`(0, 0, -1/2) ≠ 0`: the claimed bounds fail at the pipeline boundary. -/
theorem C4_counterexample :
    (PS.signalDynamics [0, 0, 0, 0, 12] 44100 1 false 0 true false false 1).1
      = [⟨0, 0, -(1 / 2), 0⟩] := by
  have hemb : PS.sdEmbed [0, 0, 0, 0, 12] 44100 1 false false false
      = [⟨0, 0, 0, 0⟩, ⟨0, 0, 0, 1⟩, ⟨0, 0, 12, 2⟩] := by
    unfold PS.sdEmbed PS.sdPreprocess PS.sdTau PS.takensEmbedding
    norm_num
    rw [show List.range 3 = [0, 1, 2] from rfl]
    norm_num
  have hcen : PS.centroid3 [(⟨0, 0, 0, 0⟩ : Point3D), ⟨0, 0, 0, 1⟩, ⟨0, 0, 12, 2⟩]
      = (0, 0, 4) := by
    unfold PS.centroid3
    norm_num
  have hrad : PS.maxRadius [(⟨0, 0, 0, 0⟩ : Point3D), ⟨0, 0, 0, 1⟩, ⟨0, 0, 12, 2⟩]
      (PS.centroid3 [(⟨0, 0, 0, 0⟩ : Point3D), ⟨0, 0, 0, 1⟩, ⟨0, 0, 12, 2⟩]) = 8 := by
    rw [hcen]
    unfold PS.maxRadius PS.ptRadius
    simp only [List.foldl_cons, List.foldl_nil]
    have h4 : ((0 : ℝ) - 0) * ((0 : ℝ) - 0) + ((0 : ℝ) - 0) * ((0 : ℝ) - 0)
        + ((0 : ℝ) - 4) * ((0 : ℝ) - 4) = 4 ^ 2 := by norm_num
    have h8 : ((0 : ℝ) - 0) * ((0 : ℝ) - 0) + ((0 : ℝ) - 0) * ((0 : ℝ) - 0)
        + ((12 : ℝ) - 4) * ((12 : ℝ) - 4) = 8 ^ 2 := by norm_num
    have hs16 : Real.sqrt 16 = 4 := by
      rw [show (16 : ℝ) = 4 ^ 2 by norm_num, Real.sqrt_sq (by norm_num : (0 : ℝ) ≤ 4)]
    have hs64 : Real.sqrt 64 = 8 := by
      rw [show (64 : ℝ) = 8 ^ 2 by norm_num, Real.sqrt_sq (by norm_num : (0 : ℝ) ≤ 8)]
    norm_num [hs16, hs64]
  have hnorm : PS.normalizeManifold [(⟨0, 0, 0, 0⟩ : Point3D), ⟨0, 0, 0, 1⟩, ⟨0, 0, 12, 2⟩]
      = [⟨0, 0, -(1 / 2), 0⟩, ⟨0, 0, -(1 / 2), 1⟩, ⟨0, 0, 1, 2⟩] := by
    rw [normalizeManifold_eq_map _ (by simp) (by rw [hrad]; norm_num), hrad, hcen]
    norm_num
  simp only [PS.signalDynamics, hemb, hnorm, if_true]
  norm_num [ST.downsample, ST.ceilDiv, ST.stridedFilter, ST.filterIdx]

/-! ### C10: the post-processing stages preserve the t field -/

theorem range_map_getD (l : List α) (f : α → β) (d : α) :
    (List.range l.length).map (fun i => f (l.getD i d)) = l.map f := by
  induction l with
  | nil => simp
  | cons a as ih =>
    simp only [List.length_cons, List.range_succ_eq_map, List.map_cons, List.map_map]
    refine congrArg₂ _ (by simp) ?_
    rw [show ((fun i => f ((a :: as).getD i d)) ∘ Nat.succ) = fun i => f (as.getD i d) from by
      funext i
      simp [List.getD]]
    exact ih

theorem filterIdx_map (p : ℕ → Bool) (f : α → β) (l : List α) :
    ∀ c, filterIdx p c (l.map f) = (filterIdx p c l).map f := by
  induction l with
  | nil => intro c; simp [filterIdx]
  | cons a as ih =>
    intro c
    simp only [List.map_cons, filterIdx]
    by_cases hc : p c
    · simp [hc, ih (c + 1)]
    · simp [hc, ih (c + 1)]

theorem map_t_smoothOnce (alpha : ℝ) (pts : List Point3D) :
    (PS.smoothOnce alpha pts).map Point3D.t = pts.map Point3D.t := by
  unfold PS.smoothOnce
  rw [List.map_map]
  exact range_map_getD pts Point3D.t default

/-- C10: each post-processing stage of the signal-dynamics pipeline — PCA
alignment, normalization, Laplacian smoothing, and stride downsampling — leaves
the `t` field of every surviving point unchanged (downsampling commutes with
projecting out `t`). -/
theorem C10_t_preserved (ps : List Point3D) (iters step : ℕ) (alpha : ℝ) :
    (PS.pcaAlign ps).map Point3D.t = ps.map Point3D.t ∧
    (PS.normalizeManifold ps).map Point3D.t = ps.map Point3D.t ∧
    (PS.applySmoothing ps iters alpha).map Point3D.t = ps.map Point3D.t ∧
    (ST.downsample ps step).map Point3D.t = ST.downsample (ps.map Point3D.t) step := by
  refine ⟨?_, ?_, ?_, ?_⟩
  · by_cases h : ps.length < 10
    · simp [PS.pcaAlign, h]
    · simp [PS.pcaAlign, h, List.map_map, Function.comp]
  · cases ps with
    | nil => rfl
    | cons a as =>
      by_cases hR : PS.maxRadius (a :: as) (PS.centroid3 (a :: as)) = 0
      · simp [PS.normalizeManifold, hR, List.map_map, Function.comp]
      · simp [PS.normalizeManifold, hR, List.map_map, Function.comp]
  · unfold PS.applySmoothing
    by_cases h : ps.length < 3
    · simp [h]
    · rw [if_neg h]
      induction iters with
      | zero => simp
      | succ n ih =>
        rw [Function.iterate_succ_apply', map_t_smoothOnce, ih]
  · unfold ST.downsample
    by_cases h : step = 1
    · simp [h]
    · rw [if_neg h, if_neg h]
      unfold ST.stridedFilter
      exact (filterIdx_map _ Point3D.t ps 0).symm

/-! ### C5: computeOptimalTau case structure -/

/-- `find?` on a strictly increasing list returns `L` iff `L` is the least
member satisfying the predicate. -/
theorem find?_first {p : ℕ → Bool} {l : List ℕ} (hl : List.Pairwise (· < ·) l) {L : ℕ}
    (hmem : L ∈ l) (hL : p L = true) (hfirst : ∀ m ∈ l, m < L → p m = false) :
    l.find? p = some L := by
  induction l with
  | nil => cases hmem
  | cons a as ih =>
    rcases List.mem_cons.mp hmem with rfl | hmem'
    · exact List.find?_cons_of_pos _ hL
    · have ha : a < L := ((List.pairwise_cons.mp hl).1 L hmem')
      have hpa : p a = false := hfirst a (List.mem_cons_self _ _) ha
      rw [List.find?_cons_of_neg _ (by simp [hpa])]
      exact ih (List.pairwise_cons.mp hl).2 hmem'
        (fun m hm hlt => hfirst m (List.mem_cons_of_mem _ hm) hlt)

/-- C5: `computeOptimalTau` is a pure function of the signal with the case
order of the source: variance below `1e-10` returns 10; otherwise the first
searched lag (the loop range `1 ≤ lag < min(500, ⌊n/4⌋) - 1`) with
autocorrelation `≤ 0`, clamped to at least 5; failing that, the first local
minimum of the autocorrelation, clamped to at least 5; failing that, 15.
The fallbacks 10 and 15 are returned unclamped. -/
theorem C5_computeOptimalTau_cases (s : List ℝ) :
    (PS.tauVariance s < 1e-10 → PS.computeOptimalTau s = 10) ∧
    (¬ PS.tauVariance s < 1e-10 →
      (∀ L ∈ PS.searchLags s, PS.autocorrAt s L ≤ 0 →
        (∀ m ∈ PS.searchLags s, m < L → ¬ PS.autocorrAt s m ≤ 0) →
        PS.computeOptimalTau s = max 5 L) ∧
      ((∀ m ∈ PS.searchLags s, ¬ PS.autocorrAt s m ≤ 0) →
        (∀ L ∈ PS.searchLags s,
          PS.autocorrAt s L < PS.autocorrAt s (L - 1) ∧
            PS.autocorrAt s L < PS.autocorrAt s (L + 1) →
          (∀ m ∈ PS.searchLags s, m < L →
            ¬ (PS.autocorrAt s m < PS.autocorrAt s (m - 1) ∧
               PS.autocorrAt s m < PS.autocorrAt s (m + 1))) →
          PS.computeOptimalTau s = max 5 L) ∧
        ((∀ m ∈ PS.searchLags s,
            ¬ (PS.autocorrAt s m < PS.autocorrAt s (m - 1) ∧
               PS.autocorrAt s m < PS.autocorrAt s (m + 1))) →
          PS.computeOptimalTau s = 15))) := by
  have hpw : List.Pairwise (· < ·) (PS.searchLags s) := List.pairwise_lt_range' _ _
  refine ⟨fun hv => ?_, fun hv => ⟨fun L hL hzc hfirst => ?_, fun hnozc => ⟨?_, ?_⟩⟩⟩
  · unfold PS.computeOptimalTau
    rw [if_pos hv]
  · unfold PS.computeOptimalTau
    rw [if_neg hv,
      find?_first hpw hL (by simp [hzc]) (fun m hm hlt => by simp [hfirst m hm hlt])]
  · intro L hL hlm hfirst
    unfold PS.computeOptimalTau
    rw [if_neg hv,
      List.find?_eq_none.mpr (fun m hm => by simp [hnozc m hm]),
      find?_first hpw hL (by simp [hlm.1, hlm.2])
        (fun m hm hlt => by
          rcases not_and_or.mp (hfirst m hm hlt) with h | h <;> simp [h])]
  · intro hnolm
    unfold PS.computeOptimalTau
    rw [if_neg hv,
      List.find?_eq_none.mpr (fun m hm => by simp [hnozc m hm]),
      List.find?_eq_none.mpr (fun m hm => by
        rcases not_and_or.mp (hnolm m hm) with h | h <;> simp [h])]

/-- Witness for C5 at a silent signal (variance 0 < 1e-10): returns 10. -/
theorem C5_computeOptimalTau_cases_witness :
    PS.computeOptimalTau [0, 0, 0, 0] = 10 := by
  apply (C5_computeOptimalTau_cases [0, 0, 0, 0]).1
  unfold PS.tauVariance PS.tauMean
  norm_num

/-! ### C2: maxPoints cap for every mode -/

theorem ceilDiv_two_le (L M : ℕ) (hM : 1 ≤ M) (h : M < L) : 2 ≤ ceilDiv L M := by
  have hMM : (M + M) / M = 0 + 2 := by
    rw [show M + M = 0 + M * 2 by ring, Nat.add_mul_div_left _ _ (by omega), Nat.zero_div]
  have hmono : (M + M) / M ≤ (L + M - 1) / M := Nat.div_le_div_right (by omega)
  unfold ceilDiv
  omega

theorem stride_cap (l : List α) (M : ℕ) (hM : 1 ≤ M) (h : M < l.length) :
    (stridedFilter l (ceilDiv l.length M)).length ≤ M := by
  have h2 := ceilDiv_two_le l.length M hM h
  rw [stridedFilter_length _ _ (by omega)]
  exact ceil_stride_le l.length M _ hM h rfl

theorem strided_cap_branch (l : List α) (M : ℕ) (hM : 1 ≤ M) :
    (if M < l.length then stridedFilter l (ceilDiv l.length M) else l).length ≤ M := by
  by_cases h : M < l.length
  · rw [if_pos h]
    exact stride_cap l M hM h
  · rw [if_neg h]
    omega

theorem downsample_cap_branch (l : List α) (M : ℕ) (hM : 1 ≤ M) :
    (if M < l.length then ST.downsample l (ceilDiv l.length M) else l).length ≤ M := by
  by_cases h : M < l.length
  · rw [if_pos h]
    unfold ST.downsample
    rw [if_neg (by have := ceilDiv_two_le l.length M hM h; omega)]
    exact stride_cap l M hM h
  · rw [if_neg h]
    omega

theorem unitSphereNormalize_length (pts : List Point3D) :
    (RW.unitSphereNormalize pts).length = pts.length := by
  simp only [RW.unitSphereNormalize]
  split
  · rw [List.length_map]
  · rfl

theorem cymatics_grid_sq_le (M : ℕ) :
    (⌊Real.sqrt (M : ℝ)⌋).toNat * (⌊Real.sqrt (M : ℝ)⌋).toNat ≤ M := by
  have h0 : (0 : ℝ) ≤ Real.sqrt (M : ℝ) := Real.sqrt_nonneg _
  have hfl : (0 : ℤ) ≤ ⌊Real.sqrt (M : ℝ)⌋ := Int.floor_nonneg.mpr h0
  have hg : (((⌊Real.sqrt (M : ℝ)⌋).toNat : ℕ) : ℝ) ≤ Real.sqrt (M : ℝ) := by
    have := Int.floor_le (Real.sqrt (M : ℝ))
    have hcast : (((⌊Real.sqrt (M : ℝ)⌋).toNat : ℕ) : ℝ) = ((⌊Real.sqrt (M : ℝ)⌋ : ℤ) : ℝ) := by
      exact_mod_cast congrArg (fun z : ℤ => (z : ℝ)) (Int.toNat_of_nonneg hfl)
    rw [hcast]
    exact this
  have hmul : (((⌊Real.sqrt (M : ℝ)⌋).toNat * (⌊Real.sqrt (M : ℝ)⌋).toNat : ℕ) : ℝ) ≤ (M : ℝ) := by
    push_cast
    calc ((⌊Real.sqrt (M : ℝ)⌋).toNat : ℝ) * ((⌊Real.sqrt (M : ℝ)⌋).toNat : ℝ)
        ≤ Real.sqrt (M : ℝ) * Real.sqrt (M : ℝ) := by
          exact mul_le_mul hg hg (by positivity) h0
      _ = (M : ℝ) := Real.mul_self_sqrt (by positivity)
  exact_mod_cast hmul

theorem sum_lengths_grid {β : Type} (g : ℕ) (f : ℕ → ℕ → β) :
    (List.map (List.length ∘ fun ix => List.map (f ix) (List.range g)) (List.range g)).sum
      = g * g := by
  rw [show (List.length ∘ fun ix => List.map (f ix) (List.range g)) = fun _ : ℕ => g from by
    funext ix
    simp]
  rw [List.map_const', List.length_range, List.sum_replicate, smul_eq_mul]

theorem filterIdx_mod_zero_pos (l : List α) : ∀ c, 0 < c →
    filterIdx (fun i => i % 0 == 0) c l = [] := by
  induction l with
  | nil =>
    intro c hc
    rfl
  | cons a as ih =>
    intro c hc
    unfold filterIdx
    rw [if_neg (by simp [Nat.mod_zero]; omega)]
    exact ih (c + 1) (by omega)

theorem stridedFilter_zero (l : List α) : stridedFilter l 0 = l.take 1 := by
  cases l with
  | nil => rfl
  | cons a as =>
    unfold stridedFilter filterIdx
    rw [if_pos (by simp), filterIdx_mod_zero_pos as 1 (by omega)]
    rfl

theorem ceilDiv_zero (a : ℕ) : ceilDiv a 0 = 0 := by
  unfold ceilDiv
  exact Nat.div_zero _

theorem downsample_zero_le_one (l : List α) : (ST.downsample l 0).length ≤ 1 := by
  unfold ST.downsample
  rw [if_neg (by omega : ¬ (0 : ℕ) = 1), stridedFilter_zero, List.length_take]
  omega

theorem downsample_zero_branch (l : List α) :
    (if 0 < l.length then ST.downsample l (ceilDiv l.length 0) else l).length ≤ 1 := by
  by_cases h : 0 < l.length
  · rw [if_pos h, ceilDiv_zero]
    exact downsample_zero_le_one l
  · rw [if_neg h]
    omega

theorem strided_zero_branch (l : List α) :
    (if 0 < l.length then stridedFilter l (ceilDiv l.length 0) else l).length ≤ 1 := by
  by_cases h : 0 < l.length
  · rw [if_pos h, ceilDiv_zero, stridedFilter_zero, List.length_take]
    omega
  · rw [if_neg h]
    omega

/-- C2 (amended: for `maxPoints ≥ 1`): every mode returns at most `maxPoints`
points — signal-dynamics, lissajous-manifold and LPC by `⌈count/maxPoints⌉`
stride decimation, lissajous by `min(maxPoints, 2000)` points, cymatics by a
`⌊√maxPoints⌋²`-point grid.  For `maxPoints = 0` the three stride-decimation
modes return at most one point (the JS step is `Infinity` and
`i % Infinity === 0` keeps exactly index 0), so the cap `length ≤ 0` can
fail by exactly one point, see `C2_counterexample`. -/
theorem C2_maxPoints_cap (maxPoints : ℕ) (hM : 1 ≤ maxPoints) :
    (∀ (samples : List ℝ) (sampleRate tau : ℕ) (autoTau : Bool) (smoothing : ℕ)
      (normalize preprocess doPCA : Bool),
      (PS.signalDynamics samples sampleRate tau autoTau smoothing normalize preprocess doPCA
        maxPoints).1.length ≤ maxPoints) ∧
    (∀ traj, (RW.resGeometry RW.ResMode.lissajous traj maxPoints).length ≤ maxPoints) ∧
    (∀ traj, (RW.resGeometry RW.ResMode.cymatics traj maxPoints).length ≤ maxPoints) ∧
    (∀ traj, (RW.resGeometry RW.ResMode.lissajousManifold traj maxPoints).length ≤ maxPoints) ∧
    (∀ traj, (LPC.generateLPCVowelSpace traj maxPoints).length ≤ maxPoints) ∧
    (∀ (samples : List ℝ) (sampleRate tau : ℕ) (autoTau : Bool) (smoothing : ℕ)
      (normalize preprocess doPCA : Bool),
      (PS.signalDynamics samples sampleRate tau autoTau smoothing normalize preprocess doPCA
        0).1.length ≤ 1) ∧
    (∀ traj, (RW.resGeometry RW.ResMode.lissajousManifold traj 0).length ≤ 1) ∧
    (∀ traj, (LPC.generateLPCVowelSpace traj 0).length ≤ 1) := by
  refine ⟨fun samples sampleRate tau autoTau smoothing normalize preprocess doPCA => ?_,
    fun traj => ?_, fun traj => ?_, fun traj => ?_, fun traj => ?_,
    fun samples sampleRate tau autoTau smoothing normalize preprocess doPCA => ?_,
    fun traj => ?_, fun traj => ?_⟩
  · unfold PS.signalDynamics
    exact downsample_cap_branch _ maxPoints hM
  · rw [show RW.resGeometry RW.ResMode.lissajous traj maxPoints
        = RW.unitSphereNormalize (RW.generateLissajous traj maxPoints) from rfl,
      unitSphereNormalize_length]
    simp only [RW.generateLissajous]
    split
    · simp
    · rw [List.length_map, List.length_range]
      omega
  · rw [show RW.resGeometry RW.ResMode.cymatics traj maxPoints
        = RW.unitSphereNormalize (RW.generateCymatics traj maxPoints) from rfl,
      unitSphereNormalize_length]
    simp only [RW.generateCymatics]
    split
    · simp
    · rw [List.length_flatMap, sum_lengths_grid]
      exact cymatics_grid_sq_le maxPoints
  · rw [show RW.resGeometry RW.ResMode.lissajousManifold traj maxPoints
        = RW.unitSphereNormalize (RW.generateLissajousManifold traj maxPoints) from rfl,
      unitSphereNormalize_length]
    simp only [RW.generateLissajousManifold]
    split
    · simp
    · exact strided_cap_branch _ maxPoints hM
  · unfold LPC.generateLPCVowelSpace
    split
    · simp
    · exact strided_cap_branch _ maxPoints hM
  · unfold PS.signalDynamics
    exact downsample_zero_branch _
  · rw [show RW.resGeometry RW.ResMode.lissajousManifold traj 0
        = RW.unitSphereNormalize (RW.generateLissajousManifold traj 0) from rfl,
      unitSphereNormalize_length]
    simp only [RW.generateLissajousManifold]
    split
    · simp
    · exact strided_zero_branch _
  · unfold LPC.generateLPCVowelSpace
    split
    · simp
    · exact strided_zero_branch _

/-- Witness for C2 at `maxPoints = 3` with a 5-sample signal (3 embedded
points, already within the cap). -/
theorem C2_maxPoints_cap_witness :
    (PS.signalDynamics [0, 0, 0, 0, 0] 44100 1 false 0 false false false 3).1.length ≤ 3 :=
  (C2_maxPoints_cap 3 (by omega)).1 [0, 0, 0, 0, 0] 44100 1 false 0 false false false

/-- C2 counterexample at `maxPoints = 0`: the stride modes still emit one
point — `generateLPCVowelSpace` on a single frame returns 1 > 0 points, and
the signal-dynamics pipeline on a 5-sample signal (3 embedded points) also
returns exactly one point (`Math.ceil(len/0) = Infinity`, and
`i % Infinity === 0` only for `i = 0`, keeps the first point), violating the
cap `length ≤ 0`. -/
theorem C2_counterexample :
    ¬ ((LPC.generateLPCVowelSpace [⟨0, 500, 1500, 2500, 80, 100, 120, 1000⟩] 0).length ≤ 0) ∧
    (PS.signalDynamics [0, 0, 0, 0, 12] 44100 1 false 0 false false false 0).1.length = 1 := by
  constructor
  · unfold LPC.generateLPCVowelSpace
    norm_num [ST.stridedFilter, ST.filterIdx, ST.ceilDiv]
  · have hemb : PS.sdEmbed [0, 0, 0, 0, 12] 44100 1 false false false
        = [⟨0, 0, 0, 0⟩, ⟨0, 0, 0, 1⟩, ⟨0, 0, 12, 2⟩] := by
      unfold PS.sdEmbed PS.sdPreprocess PS.sdTau PS.takensEmbedding
      norm_num
      rw [show List.range 3 = [0, 1, 2] from rfl]
      norm_num
    simp only [PS.signalDynamics, hemb]
    norm_num [ST.downsample, ST.stridedFilter, ST.filterIdx, ST.ceilDiv]

/-! ### C8: t ∈ [0,1] at the boundary -/

theorem t_index_bounds (j L : ℕ) (h : j < L) :
    0 ≤ (j : ℝ) / (L : ℝ) ∧ (j : ℝ) / (L : ℝ) ≤ 1 := by
  have hL : (0 : ℝ) < (L : ℝ) := by exact_mod_cast (by omega : 0 < L)
  constructor
  · positivity
  · rw [div_le_one hL]
    exact_mod_cast h.le

/-- `unitSphereNormalize` leaves every `t` value in place (value-wise). -/
theorem unitSphereNormalize_t (pts : List Point3D) :
    ∀ p ∈ RW.unitSphereNormalize pts, ∃ q ∈ pts, p.t = q.t := by
  intro p hp
  simp only [RW.unitSphereNormalize] at hp
  split at hp
  · obtain ⟨q, hq, rfl⟩ := List.mem_map.mp hp
    exact ⟨q, hq, rfl⟩
  · exact ⟨p, hp, rfl⟩

theorem generateLissajous_t (traj : List RW.FormantFrame) (maxPoints : ℕ) :
    ∀ p ∈ RW.generateLissajous traj maxPoints, 0 ≤ p.t ∧ p.t ≤ 1 := by
  intro p hp
  simp only [RW.generateLissajous] at hp
  split at hp
  · simp at hp
  · obtain ⟨i, hi, rfl⟩ := List.mem_map.mp hp
    rw [List.mem_range] at hi
    exact t_index_bounds i _ hi

theorem generateCymatics_t (traj : List RW.FormantFrame) (maxPoints : ℕ) :
    ∀ p ∈ RW.generateCymatics traj maxPoints, 0 ≤ p.t ∧ p.t ≤ 1 := by
  intro p hp
  simp only [RW.generateCymatics] at hp
  split at hp
  · simp at hp
  · obtain ⟨ix, hix, hp2⟩ := List.mem_flatMap.mp hp
    obtain ⟨iy, hiy, rfl⟩ := List.mem_map.mp hp2
    rw [List.mem_range] at hix hiy
    set g := (⌊Real.sqrt (maxPoints : ℝ)⌋).toNat with hg
    have hgather : ((ix : ℝ) * (g : ℝ) + (iy : ℝ)) = (((ix * g + iy : ℕ)) : ℝ) := by
      push_cast
      ring
    show 0 ≤ ((ix : ℝ) * (g : ℝ) + (iy : ℝ)) / ((g : ℝ) * (g : ℝ)) ∧ _ ≤ 1
    rw [hgather, show ((g : ℝ) * (g : ℝ)) = (((g * g : ℕ)) : ℝ) by push_cast; ring]
    exact t_index_bounds (ix * g + iy) (g * g) (by nlinarith)

theorem manifoldGo_t (traj : List RW.FormantFrame) :
    ∀ (rest : List RW.FormantFrame) (idx : ℕ) (prevs : ℝ × ℝ × ℝ),
      idx + rest.length ≤ traj.length →
      ∀ p ∈ RW.manifoldGo traj idx prevs rest,
        ∃ j : ℕ, j < traj.length ∧ p.t = (j : ℝ) / (traj.length : ℝ) := by
  intro rest
  induction rest with
  | nil =>
    intro idx prevs hlen p hp
    simp [RW.manifoldGo] at hp
  | cons frame rest ih =>
    intro idx prevs hlen p hp
    obtain ⟨pF1, pF2, pF3⟩ := prevs
    simp only [RW.manifoldGo] at hp
    split at hp
    · exact ih (idx + 1) _ (by simp only [List.length_cons] at hlen; omega) p hp
    · rcases List.mem_append.mp hp with hseg | hrest
      · obtain ⟨i, _, rfl⟩ := List.mem_map.mp hseg
        exact ⟨idx, by simp only [List.length_cons] at hlen; omega, rfl⟩
      · exact ih (idx + 1) _ (by simp only [List.length_cons] at hlen; omega) p hrest

theorem generateLissajousManifold_t (traj : List RW.FormantFrame) (maxPoints : ℕ) :
    ∀ p ∈ RW.generateLissajousManifold traj maxPoints, 0 ≤ p.t ∧ p.t ≤ 1 := by
  intro p hp
  simp only [RW.generateLissajousManifold] at hp
  split at hp
  · simp at hp
  · have hcore : ∀ q ∈ RW.manifoldGo traj 0
        ((traj.getD 0 default).f1, (traj.getD 0 default).f2, (traj.getD 0 default).f3) traj,
        0 ≤ Point3D.t q ∧ Point3D.t q ≤ 1 := by
      intro q hq
      obtain ⟨j, hj, hjt⟩ := manifoldGo_t traj traj 0 _ (by omega) q hq
      rw [hjt]
      exact t_index_bounds j _ hj
    split at hp
    · exact hcore p (filterIdx_sublist _ _ _ p hp)
    · exact hcore p hp

theorem generateLPCVowelSpace_t (traj : List LPC.LPCFrame) (maxPoints : ℕ) :
    ∀ p ∈ LPC.generateLPCVowelSpace traj maxPoints, 0 ≤ p.t ∧ p.t ≤ 1 := by
  intro p hp
  simp only [LPC.generateLPCVowelSpace] at hp
  split at hp
  · simp at hp
  · split at hp
    · replace hp := filterIdx_sublist _ _ _ p hp
      obtain ⟨i, hi, rfl⟩ := List.mem_map.mp hp
      rw [List.mem_range] at hi
      exact t_index_bounds i _ hi
    · obtain ⟨i, hi, rfl⟩ := List.mem_map.mp hp
      rw [List.mem_range] at hi
      exact t_index_bounds i _ hi

theorem getD_zero_mem (l : List α) (d : α) (h : l ≠ []) : l.getD 0 d ∈ l := by
  cases l with
  | nil => exact absurd rfl h
  | cons a as => exact List.mem_cons_self _ _

/-- C8 (amended): every point returned by the resonance modes (lissajous,
cymatics, lissajous-manifold, after the final unit-sphere normalization) and
by the LPC vowel-space mode has `t ∈ [0, 1]`.  The claim fails for
signal-dynamics, whose `t` is the raw embedding index
(see `C8_counterexample`). -/
theorem C8_t_in_unit_interval :
    (∀ (mode : RW.ResMode) (traj : List RW.FormantFrame) (maxPoints : ℕ),
      ∀ p ∈ RW.resGeometry mode traj maxPoints, 0 ≤ p.t ∧ p.t ≤ 1) ∧
    (∀ (traj : List LPC.LPCFrame) (maxPoints : ℕ),
      ∀ p ∈ LPC.generateLPCVowelSpace traj maxPoints, 0 ≤ p.t ∧ p.t ≤ 1) := by
  refine ⟨fun mode traj maxPoints p hp => ?_, generateLPCVowelSpace_t⟩
  obtain ⟨q, hq, hpq⟩ := unitSphereNormalize_t _ p hp
  rw [hpq]
  cases mode with
  | lissajous => exact generateLissajous_t traj maxPoints q hq
  | cymatics => exact generateCymatics_t traj maxPoints q hq
  | lissajousManifold => exact generateLissajousManifold_t traj maxPoints q hq

/-- Witness for C8: the single LPC vowel-space point of a one-frame trajectory
has `t ∈ [0, 1]`. -/
theorem C8_t_in_unit_interval_witness :
    0 ≤ ((LPC.generateLPCVowelSpace [⟨0, 500, 1500, 2500, 80, 100, 120, 1000⟩] 10).getD 0
      ⟨0, 0, 0, 0, 0⟩).t ∧
    ((LPC.generateLPCVowelSpace [⟨0, 500, 1500, 2500, 80, 100, 120, 1000⟩] 10).getD 0
      ⟨0, 0, 0, 0, 0⟩).t ≤ 1 := by
  refine C8_t_in_unit_interval.2 [⟨0, 500, 1500, 2500, 80, 100, 120, 1000⟩] 10 _
    (getD_zero_mem _ _ ?_)
  intro hnil
  have := congrArg List.length hnil
  rw [List.length_nil] at this
  simp only [LPC.generateLPCVowelSpace] at this
  norm_num [ST.stridedFilter, ST.filterIdx, ST.ceilDiv] at this

/-- C8 counterexample: in signal-dynamics the third returned point of a
5-sample signal with `τ = 1` carries `t = 2 ∉ [0, 1]`. -/
theorem C8_counterexample :
    ¬ (((PS.signalDynamics [0, 0, 0, 0, 0] 44100 1 false 0 false false false 10).1.getD 2
        default).t ≤ 1) := by
  have hemb : PS.sdEmbed [0, 0, 0, 0, 0] 44100 1 false false false
      = [⟨0, 0, 0, 0⟩, ⟨0, 0, 0, 1⟩, ⟨0, 0, 0, 2⟩] := by
    unfold PS.sdEmbed PS.sdPreprocess PS.sdTau PS.takensEmbedding
    norm_num
    rw [show List.range 3 = [0, 1, 2] from rfl]
    norm_num
  simp only [PS.signalDynamics, hemb]
  norm_num [List.getD]

/-! ### C1: formant ordering -/

/-- Every peak found by the scan of `detectFormants` has positive frequency
(bin index ≥ 1 times a positive bin width) when the sample rate is positive. -/
theorem peak_freq_pos (envelope : List ℝ) (sampleRate : ℕ) (hsr : 0 < sampleRate) :
    ∀ pk ∈ RW.envelopePeaks envelope sampleRate, 0 < pk.freq := by
  intro pk hpk
  simp only [RW.envelopePeaks] at hpk
  obtain ⟨i, hi, hsome⟩ := List.mem_filterMap.mp hpk
  rw [List.mem_range'_1] at hi
  split at hsome
  · have hpk2 := Option.some_injective _ hsome
    have hn : 0 < envelope.length := by
      rcases Nat.eq_zero_or_pos envelope.length with h0 | h; swap
      · exact h
      · exfalso
        rw [h0] at hi
        omega
    have hfpb : 0 < (sampleRate : ℝ) / (2 * (envelope.length : ℝ)) := by
      apply div_pos
      · exact_mod_cast hsr
      · have : (0 : ℝ) < (envelope.length : ℝ) := by exact_mod_cast hn
        linarith
    rw [← hpk2]
    show 0 < (i : ℝ) * ((sampleRate : ℝ) / (2 * (envelope.length : ℝ)))
    apply mul_pos _ hfpb
    have : 1 ≤ i := by omega
    exact_mod_cast this
  · cases hsome

/-- C1 (amended): the formant triple is ordered `f1 ≤ f2 ≤ f3` whenever the
peak/root filter leaves no survivor (all three defaults are used, and
`500 ≤ 1500 ≤ 2500`) or at least three survivors (the three values come from
one ascending sort).  With one or two survivors the default fill can break the
ordering (see `C1_counterexample`). -/
theorem C1_formant_ordering_amended :
    (∀ (envelope : List ℝ) (sampleRate : ℕ), 0 < sampleRate →
      (RW.envelopePeaks envelope sampleRate = [] ∨
        3 ≤ (RW.envelopePeaks envelope sampleRate).length) →
      (RW.detectFormants envelope sampleRate).1 ≤ (RW.detectFormants envelope sampleRate).2.1 ∧
      (RW.detectFormants envelope sampleRate).2.1 ≤ (RW.detectFormants envelope sampleRate).2.2) ∧
    (∀ (roots : List LPC.Cx) (sampleRate : ℕ),
      (LPC.survivingFormants roots sampleRate = [] ∨
        3 ≤ (LPC.survivingFormants roots sampleRate).length) →
      (LPC.rootsToFormants roots sampleRate).1.1
          ≤ (LPC.rootsToFormants roots sampleRate).1.2.1 ∧
      (LPC.rootsToFormants roots sampleRate).1.2.1
          ≤ (LPC.rootsToFormants roots sampleRate).1.2.2) := by
  constructor
  · intro envelope sampleRate hsr hcase
    rcases hcase with hnil | h3
    · unfold RW.detectFormants RW.topFreqs
      rw [hnil]
      norm_num [RW.jsOrZero]
    · have hsorted : List.Sorted (fun a b : ℝ => a ≤ b)
          (RW.topFreqs envelope sampleRate) := by
        unfold RW.topFreqs
        exact List.sorted_insertionSort _ _
      have hlen : (RW.topFreqs envelope sampleRate).length = 3 := by
        unfold RW.topFreqs
        rw [(List.perm_insertionSort _ _).length_eq, List.length_map, List.length_take,
          (List.perm_insertionSort _ _).length_eq]
        omega
      have hpos : ∀ x ∈ RW.topFreqs envelope sampleRate, 0 < x := by
        intro x hx
        unfold RW.topFreqs at hx
        have hx2 := (List.perm_insertionSort _ _).mem_iff.mp hx
        obtain ⟨pk, hpk, rfl⟩ := List.mem_map.mp hx2
        have hpk2 := List.mem_of_mem_take hpk
        have hpk3 := (List.perm_insertionSort _ _).mem_iff.mp hpk2
        exact peak_freq_pos envelope sampleRate hsr pk hpk3
      rcases htf : RW.topFreqs envelope sampleRate with _ | ⟨a, _ | ⟨b, _ | ⟨c, rest⟩⟩⟩ <;>
        rw [htf] at hlen <;> simp at hlen
      rw [htf] at hsorted hpos
      have hrest : rest = [] := by
        cases rest with
        | nil => rfl
        | cons d ds => simp at hlen
      subst hrest
      have hab : a ≤ b := (List.pairwise_cons.mp hsorted).1 b (by simp)
      have hbc : b ≤ c := (List.pairwise_cons.mp
        (List.pairwise_cons.mp hsorted).2).1 c (by simp)
      have ha : a ≠ 0 := (hpos a (by simp)).ne'
      have hb : b ≠ 0 := (hpos b (by simp)).ne'
      have hc : c ≠ 0 := (hpos c (by simp)).ne'
      unfold RW.detectFormants
      rw [htf]
      simp only [List.get?, RW.jsOrZero]
      rw [if_neg ha, if_neg hb, if_neg hc]
      exact ⟨hab, hbc⟩
  · intro roots sampleRate hcase
    rcases hcase with hnil | h3
    · unfold LPC.rootsToFormants
      rw [hnil]
      norm_num
    · have hsorted : List.Sorted (fun a b : ℝ × ℝ => a.1 ≤ b.1)
          (List.insertionSort (fun a b : ℝ × ℝ => a.1 ≤ b.1)
            (LPC.survivingFormants roots sampleRate)) :=
        List.sorted_insertionSort _ _
      have hlen : 3 ≤ (List.insertionSort (fun a b : ℝ × ℝ => a.1 ≤ b.1)
          (LPC.survivingFormants roots sampleRate)).length := by
        rw [(List.perm_insertionSort _ _).length_eq]
        exact h3
      rcases hs : List.insertionSort (fun a b : ℝ × ℝ => a.1 ≤ b.1)
          (LPC.survivingFormants roots sampleRate) with _ | ⟨a, _ | ⟨b, _ | ⟨c, rest⟩⟩⟩ <;>
        rw [hs] at hlen <;> simp at hlen
      rw [hs] at hsorted
      have hab : a.1 ≤ b.1 := (List.pairwise_cons.mp hsorted).1 b (by simp)
      have hbc : b.1 ≤ c.1 := (List.pairwise_cons.mp
        (List.pairwise_cons.mp hsorted).2).1 c (by simp)
      unfold LPC.rootsToFormants
      rw [hs]
      simp only [List.get?, Option.map_some', Option.getD_some]
      exact ⟨hab, hbc⟩

/-- Witness for C1: a flat envelope yields no peaks, so the defaults
`500 ≤ 1500 ≤ 2500` are ordered; likewise an empty root list. -/
theorem C1_formant_ordering_amended_witness :
    ((RW.detectFormants ([0, 0, 0, 0, 0, 0, 0, 0] : List ℝ) 8000).1
        ≤ (RW.detectFormants ([0, 0, 0, 0, 0, 0, 0, 0] : List ℝ) 8000).2.1 ∧
      (RW.detectFormants ([0, 0, 0, 0, 0, 0, 0, 0] : List ℝ) 8000).2.1
        ≤ (RW.detectFormants ([0, 0, 0, 0, 0, 0, 0, 0] : List ℝ) 8000).2.2) ∧
    ((LPC.rootsToFormants [] 8000).1.1 ≤ (LPC.rootsToFormants [] 8000).1.2.1 ∧
      (LPC.rootsToFormants [] 8000).1.2.1 ≤ (LPC.rootsToFormants [] 8000).1.2.2) := by
  constructor
  · apply C1_formant_ordering_amended.1 _ 8000 (by norm_num)
    left
    unfold RW.envelopePeaks
    norm_num
    intro a h1 h6 hc1
    have hz : ∀ i : ℕ, (([0, 0, 0, 0, 0, 0, 0, 0] : List ℝ))[i]?.getD 0 = 0 := by
      intro i
      rcases i with _ | _ | _ | _ | _ | _ | _ | (_ | i) <;> simp
    rw [hz, hz] at hc1
    exact absurd hc1 (lt_irrefl 0)
  · apply C1_formant_ordering_amended.2 [] 8000
    left
    rfl

/-- C1 counterexample: an envelope with a single surviving peak at 2000 Hz
(8 bins, 8 kHz, bins of 500 Hz) yields `(f1, f2, f3) = (2000, 1500, 2500)`:
the default fill breaks the ordering (`f1 > f2`). -/
theorem C1_counterexample :
    ¬ ((RW.detectFormants ([0, 0, 0, 0, 1, 0, 0, 0] : List ℝ) 8000).1
        ≤ (RW.detectFormants ([0, 0, 0, 0, 1, 0, 0, 0] : List ℝ) 8000).2.1 ∧
       (RW.detectFormants ([0, 0, 0, 0, 1, 0, 0, 0] : List ℝ) 8000).2.1
        ≤ (RW.detectFormants ([0, 0, 0, 0, 1, 0, 0, 0] : List ℝ) 8000).2.2) := by
  have hpk : RW.envelopePeaks ([0, 0, 0, 0, 1, 0, 0, 0] : List ℝ) 8000 = [⟨2000, 1, 1⟩] := by
    unfold RW.envelopePeaks
    norm_num [show List.range' 1 5 = [1, 2, 3, 4, 5] from rfl, List.filterMap_cons]
  have htf : RW.topFreqs ([0, 0, 0, 0, 1, 0, 0, 0] : List ℝ) 8000 = [2000] := by
    unfold RW.topFreqs
    rw [hpk]
    rfl
  unfold RW.detectFormants
  rw [htf]
  norm_num [RW.jsOrZero, List.get?]

/-! ### C7: stability weighting in the lissajous-manifold generator -/

/-- The stateful frame loop of `generateLissajousManifold` equals a per-frame
closed form: frame `j` contributes `manifoldSegment traj j` iff
`manifoldWeight traj j ≥ 0.1`, and nothing otherwise. -/
theorem manifoldGo_closed (traj : List RW.FormantFrame) :
    ∀ (rest : List RW.FormantFrame) (idx : ℕ), rest = traj.drop idx →
      RW.manifoldGo traj idx
          ((traj.getD (idx - 1) default).f1, (traj.getD (idx - 1) default).f2,
            (traj.getD (idx - 1) default).f3) rest
        = (List.range' idx (traj.length - idx)).flatMap fun j =>
            if RW.manifoldWeight traj j < 0.1 then [] else RW.manifoldSegment traj j := by
  intro rest
  induction rest with
  | nil =>
    intro idx hdrop
    have hle : traj.length ≤ idx := by
      have := congrArg List.length hdrop
      simp only [List.length_drop, List.length_nil] at this
      omega
    rw [show traj.length - idx = 0 by omega]
    simp [RW.manifoldGo]
  | cons frame rest ih =>
    intro idx hdrop
    have hlt : idx < traj.length := by
      rcases Nat.lt_or_ge idx traj.length with h | h
      · exact h
      · rw [List.drop_eq_nil_of_le h] at hdrop
        cases hdrop
    have hdrop2 : traj.drop idx = traj[idx] :: traj.drop (idx + 1) :=
      List.drop_eq_getElem_cons hlt
    rw [hdrop2] at hdrop
    injection hdrop with hframe hrest
    have hgetD : traj.getD idx default = traj[idx] := List.getD_eq_getElem traj default hlt
    subst hframe
    rw [show traj.length - idx = (traj.length - (idx + 1)) + 1 by omega, List.range'_succ]
    simp only [List.flatMap_cons]
    simp only [RW.manifoldGo, ← hgetD]
    have hwrw : min (1 / ((|(traj.getD idx default).f1 - (traj.getD (idx - 1) default).f1| +
        |(traj.getD idx default).f2 - (traj.getD (idx - 1) default).f2| +
        |(traj.getD idx default).f3 - (traj.getD (idx - 1) default).f3|) + 1e-3) * 0.05) 1
        = RW.manifoldWeight traj idx := rfl
    rw [hwrw]
    have hih := ih (idx + 1) hrest
    rw [Nat.add_sub_cancel] at hih
    by_cases hw : RW.manifoldWeight traj idx < 0.1
    · rw [if_pos hw, if_pos hw, hih, List.nil_append]
    · rw [if_neg hw, if_neg hw, hih]
      rfl

/-- C7 (amended): (a) before the final `maxPoints` decimation, the manifold
generator's frame loop emits, for each frame `j`, its 20-point segment iff the
stability weight `min(1/(Δformants + 1e-3)·0.05, 1)` of frame `j` is ≥ 0.1,
and no points otherwise; (b) on a trajectory of at least 2 frames whose
formants `f1`, `f2`, `f3` are constant across frames (the `time` stamps are
arbitrary), every frame's weight is exactly 1 and no frame is skipped — the
loop emits `20 · numFrames` points.  (The final stride decimation can still
drop all of a surviving frame's points, see `C7_counterexample`.) -/
theorem C7_manifold_stability (traj : List RW.FormantFrame) (h2 : 2 ≤ traj.length) :
    (RW.manifoldGo traj 0
        ((traj.getD 0 default).f1, (traj.getD 0 default).f2, (traj.getD 0 default).f3) traj
      = (List.range traj.length).flatMap fun j =>
          if RW.manifoldWeight traj j < 0.1 then [] else RW.manifoldSegment traj j) ∧
    ((∀ i < traj.length,
        (traj.getD i default).f1 = (traj.getD 0 default).f1 ∧
        (traj.getD i default).f2 = (traj.getD 0 default).f2 ∧
        (traj.getD i default).f3 = (traj.getD 0 default).f3) →
      (∀ j < traj.length, RW.manifoldWeight traj j = 1) ∧
      (RW.manifoldGo traj 0
          ((traj.getD 0 default).f1, (traj.getD 0 default).f2,
            (traj.getD 0 default).f3) traj).length = 20 * traj.length) := by
  have hclosed := manifoldGo_closed traj traj 0 (by rw [List.drop_zero])
  rw [show (0 : ℕ) - 1 = 0 from rfl, Nat.sub_zero, ← List.range_eq_range'] at hclosed
  refine ⟨hclosed, fun hconst => ?_⟩
  have hweights : ∀ j < traj.length, RW.manifoldWeight traj j = 1 := by
    intro j hj
    have hj1 : j - 1 < traj.length := by omega
    obtain ⟨hf1, hf2, hf3⟩ := hconst j hj
    obtain ⟨hg1, hg2, hg3⟩ := hconst (j - 1) hj1
    simp only [RW.manifoldWeight, RW.manifoldDelta]
    rw [hf1, hf2, hf3, hg1, hg2, hg3]
    norm_num
  refine ⟨hweights, ?_⟩
  rw [hclosed, List.length_flatMap]
  have hmap : (List.range traj.length).map
      (List.length ∘ fun j =>
        if RW.manifoldWeight traj j < 0.1 then [] else RW.manifoldSegment traj j)
      = (List.range traj.length).map fun _ => 20 := by
    apply List.map_congr_left
    intro j hj
    rw [List.mem_range] at hj
    show (if RW.manifoldWeight traj j < 0.1 then ([] : List Point3D)
      else RW.manifoldSegment traj j).length = 20
    rw [if_neg (by rw [hweights j hj]; norm_num)]
    unfold RW.manifoldSegment
    rw [List.length_map, List.length_range]
  rw [hmap, List.map_const', List.length_range, List.sum_replicate, smul_eq_mul,
    Nat.mul_comm]

/-- Witness for C7 on two frames with constant formants (500, 1500, 2500) and
distinct times 0 and 1: frame 1's weight is exactly 1 and the loop emits
20·2 points. -/
theorem C7_manifold_stability_witness :
    RW.manifoldWeight [⟨0, 500, 1500, 2500⟩, ⟨1, 500, 1500, 2500⟩] 1 = 1 ∧
    (RW.manifoldGo [⟨0, 500, 1500, 2500⟩, ⟨1, 500, 1500, 2500⟩] 0
        ((([⟨0, 500, 1500, 2500⟩, ⟨1, 500, 1500, 2500⟩] :
            List RW.FormantFrame).getD 0 default).f1,
          (([⟨0, 500, 1500, 2500⟩, ⟨1, 500, 1500, 2500⟩] :
            List RW.FormantFrame).getD 0 default).f2,
          (([⟨0, 500, 1500, 2500⟩, ⟨1, 500, 1500, 2500⟩] :
            List RW.FormantFrame).getD 0 default).f3)
        [⟨0, 500, 1500, 2500⟩, ⟨1, 500, 1500, 2500⟩]).length = 20 * 2 := by
  have h := (C7_manifold_stability [⟨0, 500, 1500, 2500⟩, ⟨1, 500, 1500, 2500⟩]
      (by norm_num)).2 (by
    intro i hi
    simp only [List.length_cons, List.length_nil] at hi
    interval_cases i <;> exact ⟨rfl, rfl, rfl⟩)
  exact ⟨h.1 1 (by norm_num), h.2⟩

theorem stridedFilter_head (a : α) (l : List α) (k : ℕ) (d : α) :
    (ST.stridedFilter (a :: l) k).getD 0 d = a := by
  unfold ST.stridedFilter filterIdx
  rw [if_pos (by simp)]
  rfl

/-- C7 counterexample: two constant-formant frames, `maxPoints = 1`.  Frame 1
has stability weight 1 (not < 0.1), yet the returned array is the single point
of frame 0 (`t = 0`; every frame-1 point would carry `t = 1/2`): with the final
decimation included, "contributes no points exactly when weight < 0.1" fails. -/
theorem C7_counterexample :
    ¬ RW.manifoldWeight [⟨0, 500, 1500, 2500⟩, ⟨0, 500, 1500, 2500⟩] 1 < 0.1 ∧
    (RW.generateLissajousManifold [⟨0, 500, 1500, 2500⟩, ⟨0, 500, 1500, 2500⟩] 1).length = 1 ∧
    ((RW.generateLissajousManifold [⟨0, 500, 1500, 2500⟩, ⟨0, 500, 1500, 2500⟩] 1).getD 0
      default).t = 0 := by
  have hw0 : RW.manifoldWeight [⟨0, 500, 1500, 2500⟩, ⟨0, 500, 1500, 2500⟩] 0 = 1 := by
    unfold RW.manifoldWeight RW.manifoldDelta
    norm_num [List.getD]
  have hw1 : RW.manifoldWeight [⟨0, 500, 1500, 2500⟩, ⟨0, 500, 1500, 2500⟩] 1 = 1 := by
    unfold RW.manifoldWeight RW.manifoldDelta
    norm_num [List.getD]
  have hgo := manifoldGo_closed [⟨0, 500, 1500, 2500⟩, ⟨0, 500, 1500, 2500⟩]
    [⟨0, 500, 1500, 2500⟩, ⟨0, 500, 1500, 2500⟩] 0 (by rw [List.drop_zero])
  rw [Nat.zero_sub,
    show List.range' 0 (([⟨0, 500, 1500, 2500⟩, ⟨0, 500, 1500, 2500⟩] :
      List RW.FormantFrame).length - 0) = [0, 1] from rfl,
    List.flatMap_cons, List.flatMap_cons, List.flatMap_nil,
    if_neg (by rw [hw0]; norm_num), if_neg (by rw [hw1]; norm_num)] at hgo
  have hlen40 : (RW.manifoldSegment [⟨0, 500, 1500, 2500⟩, ⟨0, 500, 1500, 2500⟩] 0 ++
      (RW.manifoldSegment [⟨0, 500, 1500, 2500⟩, ⟨0, 500, 1500, 2500⟩] 1 ++ [])).length
      = 40 := by
    simp [RW.manifoldSegment]
  have hgen : RW.generateLissajousManifold [⟨0, 500, 1500, 2500⟩, ⟨0, 500, 1500, 2500⟩] 1
      = ST.stridedFilter (RW.manifoldSegment [⟨0, 500, 1500, 2500⟩, ⟨0, 500, 1500, 2500⟩] 0 ++
          (RW.manifoldSegment [⟨0, 500, 1500, 2500⟩, ⟨0, 500, 1500, 2500⟩] 1 ++ []))
          (ST.ceilDiv 40 1) := by
    simp only [RW.generateLissajousManifold, hgo]
    rw [if_neg (by norm_num), hlen40, if_pos (by norm_num)]
  refine ⟨by rw [hw1]; norm_num, ?_, ?_⟩
  · rw [hgen, show ST.ceilDiv 40 1 = 40 from rfl,
      stridedFilter_length _ _ (by norm_num), hlen40]
  · rw [hgen, show ST.ceilDiv 40 1 = 40 from rfl]
    unfold RW.manifoldSegment
    rw [show List.range 20 = 0 :: List.range' 1 19 from rfl]
    simp only [List.map_cons, List.cons_append]
    rw [stridedFilter_head]
    norm_num

/-! ### C6: the all-zero signal through the LPC pipeline -/

theorem toC_inj {a b : LPC.Cx} (h : LPC.toC a = LPC.toC b) : a = b := by
  unfold LPC.toC at h
  rw [Complex.ext_iff] at h
  exact LPC.Cx.ext h.1 h.2

theorem toC_add (a b : LPC.Cx) : LPC.toC (LPC.complexAdd a b) = LPC.toC a + LPC.toC b := by
  unfold LPC.toC LPC.complexAdd
  rw [Complex.ext_iff]
  simp

theorem toC_sub (a b : LPC.Cx) : LPC.toC (LPC.complexSub a b) = LPC.toC a - LPC.toC b := by
  unfold LPC.toC LPC.complexSub
  rw [Complex.ext_iff]
  simp

theorem toC_mul (a b : LPC.Cx) : LPC.toC (LPC.complexMul a b) = LPC.toC a * LPC.toC b := by
  unfold LPC.toC LPC.complexMul
  rw [Complex.ext_iff]
  simp [Complex.mul_re, Complex.mul_im]

theorem toC_scale (a : LPC.Cx) (s : ℝ) :
    LPC.toC (LPC.complexScale a s) = LPC.toC a * (s : ℂ) := by
  unfold LPC.toC LPC.complexScale
  rw [Complex.ext_iff]
  simp [Complex.mul_re, Complex.mul_im]

theorem normSqCx_toC (c : LPC.Cx) : LPC.normSqCx c = Complex.normSq (LPC.toC c) := by
  unfold LPC.normSqCx LPC.toC
  rw [Complex.normSq_mk]

theorem complexAbs_sqrt (c : LPC.Cx) : LPC.complexAbs c = Real.sqrt (LPC.normSqCx c) := rfl

theorem toC_div (a b : LPC.Cx) (h : ¬ LPC.normSqCx b < 1e-20) :
    LPC.toC (LPC.complexDiv a b) = LPC.toC a / LPC.toC b := by
  have hb : Complex.normSq (LPC.toC b) ≠ 0 := by
    rw [← normSqCx_toC]
    unfold LPC.normSqCx at *
    intro h0
    rw [h0] at h
    norm_num at h
  unfold LPC.complexDiv
  rw [if_neg (by unfold LPC.normSqCx at h; exact h)]
  unfold LPC.toC
  rw [Complex.ext_iff]
  constructor
  · rw [Complex.div_re]
    rw [normSqCx_toC] at *
    unfold LPC.toC at *
    simp only [Complex.normSq_mk] at *
    ring
  · rw [Complex.div_im]
    rw [normSqCx_toC] at *
    unfold LPC.toC at *
    simp only [Complex.normSq_mk] at *
    ring

theorem toC_cpow (x : LPC.Cx) (k : ℕ) : LPC.toC (LPC.cpow x k) = (LPC.toC x) ^ k := by
  induction k with
  | zero =>
    unfold LPC.cpow LPC.toC
    rw [Complex.ext_iff]
    simp
  | succ k ih =>
    unfold LPC.cpow
    rw [toC_mul, ih, pow_succ]

theorem normSqCx_cpow (x : LPC.Cx) (k : ℕ) :
    LPC.normSqCx (LPC.cpow x k) = LPC.normSqCx x ^ k := by
  rw [normSqCx_toC, toC_cpow, map_pow, ← normSqCx_toC]

theorem cpow_zero_base (k : ℕ) (hk : 1 ≤ k) : LPC.cpow ⟨0, 0⟩ k = ⟨0, 0⟩ := by
  cases k with
  | zero => omega
  | succ k =>
    unfold LPC.cpow LPC.complexMul
    simp

theorem horner3_append_single (x : LPC.Cx) (l : List ℝ) (c : ℝ) :
    ∀ acc, LPC.horner3 x (l ++ [c]) acc
      = (LPC.complexAdd (LPC.complexMul (LPC.horner3 x l acc).1 x) ⟨c, 0⟩,
         LPC.complexAdd (LPC.complexMul (LPC.horner3 x l acc).2.1 x) (LPC.horner3 x l acc).1,
         LPC.complexAdd (LPC.complexMul (LPC.horner3 x l acc).2.2 x)
           (LPC.complexScale (LPC.horner3 x l acc).2.1 2)) := by
  induction l with
  | nil =>
    intro acc
    obtain ⟨p, dp, d2p⟩ := acc
    rfl
  | cons a as ih =>
    intro acc
    obtain ⟨p, dp, d2p⟩ := acc
    rw [List.cons_append]
    show LPC.horner3 x (as ++ [c]) _ = _
    rw [ih]
    rfl

theorem horner3_monomial (x : LPC.Cx) (k : ℕ) :
    LPC.horner3 x (List.replicate k 0) (⟨1, 0⟩, ⟨0, 0⟩, ⟨0, 0⟩)
      = (LPC.cpow x k,
         LPC.complexScale (LPC.cpow x (k - 1)) k,
         LPC.complexScale (LPC.cpow x (k - 2)) (k * (k - 1))) := by
  induction k with
  | zero =>
    show ((⟨1, 0⟩, ⟨0, 0⟩, ⟨0, 0⟩) : LPC.Cx × LPC.Cx × LPC.Cx) = _
    rw [Prod.mk.injEq, Prod.mk.injEq]
    refine ⟨toC_inj ?_, toC_inj ?_, toC_inj ?_⟩
    · rw [toC_cpow]
      norm_num
      rfl
    · rw [toC_scale, toC_cpow]
      push_cast
      norm_num
      rfl
    · rw [toC_scale, toC_cpow]
      push_cast
      norm_num
      rfl
  | succ k ih =>
    rw [List.replicate_succ', horner3_append_single, ih]
    rw [Prod.mk.injEq, Prod.mk.injEq]
    refine ⟨toC_inj ?_, toC_inj ?_, toC_inj ?_⟩
    · rw [toC_add, toC_mul, toC_cpow, toC_cpow, show LPC.toC ⟨0, 0⟩ = 0 from rfl, pow_succ]
      ring
    · rw [toC_add, toC_mul, toC_scale, toC_scale, toC_cpow, toC_cpow, toC_cpow,
        Nat.add_sub_cancel]
      cases k with
      | zero =>
        push_cast
        ring
      | succ m =>
        rw [Nat.succ_sub_one]
        push_cast
        ring
    · rw [toC_add, toC_mul, toC_scale, toC_scale, toC_scale, toC_scale, toC_cpow, toC_cpow,
        toC_cpow]
      cases k with
      | zero =>
        push_cast
        ring
      | succ m =>
        cases m with
        | zero =>
          push_cast
          ring
        | succ n =>
          push_cast
          ring

theorem evaluatePolynomial_monomial (x : LPC.Cx) (k : ℕ) :
    LPC.evaluatePolynomial (1 :: List.replicate k 0) x
      = (LPC.cpow x k,
         LPC.complexScale (LPC.cpow x (k - 1)) k,
         LPC.complexScale (LPC.cpow x (k - 2)) (k * (k - 1))) := by
  unfold LPC.evaluatePolynomial
  exact horner3_monomial x k

theorem normSq_cpow_ge (x : LPC.Cx) (k : ℕ) (hk : k ≤ 14) (hx : LPC.normSqCx x = 0.81) :
    (1e-20 : ℝ) ≤ LPC.normSqCx (LPC.cpow x k) := by
  rw [normSqCx_cpow, hx]
  calc (1e-20 : ℝ) ≤ 0.81 ^ 14 := by norm_num
    _ ≤ 0.81 ^ k := pow_le_pow_of_le_one (by norm_num) (by norm_num) hk

theorem abs_cpow_not_lt (x : LPC.Cx) (k : ℕ) (hk : k ≤ 14) (hx : LPC.normSqCx x = 0.81) :
    ¬ LPC.complexAbs (LPC.cpow x k) < LPC.LAGUERRE_EPSILON := by
  rw [complexAbs_sqrt, not_lt, show LPC.LAGUERRE_EPSILON = 1e-10 from rfl,
    show (1e-10 : ℝ) = Real.sqrt 1e-20 from by
      rw [show (1e-20 : ℝ) = (1e-10) ^ 2 from by norm_num, Real.sqrt_sq (by norm_num)]]
  exact Real.sqrt_le_sqrt (normSq_cpow_ge x k hk hx)

theorem toC_x_ne_zero (x : LPC.Cx) (hx : LPC.normSqCx x = 0.81) : LPC.toC x ≠ 0 := by
  intro h0
  have := normSqCx_toC x
  rw [h0, map_zero, hx] at this
  norm_num at this


theorem toC_zero_pair : LPC.toC ⟨0, 0⟩ = 0 := by
  unfold LPC.toC
  rw [Complex.ext_iff]
  exact ⟨rfl, rfl⟩

theorem complexAbs_zero_pair : LPC.complexAbs ⟨0, 0⟩ = 0 := by
  unfold LPC.complexAbs
  norm_num

theorem complexSqrt_zero_pair : LPC.complexSqrt ⟨0, 0⟩ = ⟨0, 0⟩ := by
  unfold LPC.complexSqrt LPC.complexAbs LPC.jsAtan2
  apply LPC.Cx.ext <;> simp

theorem complexAdd_zero_pair (z : LPC.Cx) : LPC.complexAdd z ⟨0, 0⟩ = z := by
  apply LPC.Cx.ext <;> simp [LPC.complexAdd]

theorem complexSub_zero_pair (z : LPC.Cx) : LPC.complexSub z ⟨0, 0⟩ = z := by
  apply LPC.Cx.ext <;> simp [LPC.complexSub]

theorem complexSub_self_pair (z : LPC.Cx) : LPC.complexSub z z = ⟨0, 0⟩ := by
  apply LPC.Cx.ext <;> simp [LPC.complexSub]

theorem laguerreGo_monomial (k : ℕ) (hk1 : 1 ≤ k) (hk14 : k ≤ 14) (x : LPC.Cx)
    (hx : LPC.normSqCx x = 0.81) (f : ℕ) :
    LPC.laguerreGo (1 :: List.replicate k 0) (f + 1 + 1) x = ⟨0, 0⟩ := by
  have hX := toC_x_ne_zero x hx
  have hk0 : (k : ℂ) ≠ 0 := Nat.cast_ne_zero.mpr (by omega)
  have hPn : ¬ LPC.normSqCx (LPC.cpow x k) < 1e-20 := by
    have := normSq_cpow_ge x k hk14 hx
    linarith
  have htG : LPC.toC (LPC.complexDiv (LPC.complexScale (LPC.cpow x (k - 1)) (k : ℝ))
      (LPC.cpow x k)) = (k : ℂ) / LPC.toC x := by
    rw [toC_div _ _ hPn, toC_scale, toC_cpow, toC_cpow]
    have hpow : LPC.toC x ^ k = LPC.toC x ^ (k - 1) * LPC.toC x := by
      rw [← pow_succ]
      congr 1
      omega
    rw [hpow]
    have hXk : LPC.toC x ^ (k - 1) ≠ 0 := pow_ne_zero _ hX
    push_cast
    field_simp
    ring
  have htD2 : LPC.toC (LPC.complexDiv
      (LPC.complexScale (LPC.cpow x (k - 2)) ((k : ℝ) * ((k : ℝ) - 1)))
      (LPC.cpow x k)) = (k : ℂ) * ((k : ℂ) - 1) / (LPC.toC x) ^ 2 := by
    rw [toC_div _ _ hPn, toC_scale, toC_cpow, toC_cpow]
    rcases Nat.lt_or_ge k 2 with h2 | h2
    · have hk1' : k = 1 := by omega
      subst hk1'
      push_cast
      norm_num
    · have hpow : LPC.toC x ^ k = LPC.toC x ^ (k - 2) * LPC.toC x ^ 2 := by
        rw [← pow_add]
        congr 1
        omega
      rw [hpow]
      have hXk : LPC.toC x ^ (k - 2) ≠ 0 := pow_ne_zero _ hX
      push_cast
      field_simp
      ring
  have hdisc : LPC.complexScale
      (LPC.complexSub
        (LPC.complexScale
          (LPC.complexSub
            (LPC.complexMul
              (LPC.complexDiv (LPC.complexScale (LPC.cpow x (k - 1)) (k : ℝ)) (LPC.cpow x k))
              (LPC.complexDiv (LPC.complexScale (LPC.cpow x (k - 1)) (k : ℝ)) (LPC.cpow x k)))
            (LPC.complexDiv
              (LPC.complexScale (LPC.cpow x (k - 2)) ((k : ℝ) * ((k : ℝ) - 1)))
              (LPC.cpow x k)))
          (k : ℝ))
        (LPC.complexMul
          (LPC.complexDiv (LPC.complexScale (LPC.cpow x (k - 1)) (k : ℝ)) (LPC.cpow x k))
          (LPC.complexDiv (LPC.complexScale (LPC.cpow x (k - 1)) (k : ℝ)) (LPC.cpow x k))))
      ((k : ℝ) - 1) = ⟨0, 0⟩ := by
    apply toC_inj
    rw [toC_zero_pair, toC_scale, toC_sub, toC_scale, toC_sub, toC_mul, htG, htD2]
    push_cast
    field_simp
    ring
  have hnormG : LPC.normSqCx (LPC.complexDiv (LPC.complexScale (LPC.cpow x (k - 1)) (k : ℝ))
      (LPC.cpow x k)) = (k : ℝ) ^ 2 / 0.81 := by
    rw [normSqCx_toC, htG, map_div₀, show ((k : ℕ) : ℂ) = (((k : ℝ)) : ℂ) from by push_cast; rfl,
      Complex.normSq_ofReal, ← normSqCx_toC, hx]
    ring
  have hk1R : (1 : ℝ) ≤ (k : ℝ) := by exact_mod_cast hk1
  have hGeps : ¬ LPC.complexAbs (LPC.complexDiv (LPC.complexScale (LPC.cpow x (k - 1)) (k : ℝ))
      (LPC.cpow x k)) < LPC.LAGUERRE_EPSILON := by
    rw [complexAbs_sqrt, hnormG, not_lt]
    have hsq : (1 : ℝ) ≤ (k : ℝ) ^ 2 := by nlinarith
    have h1 : (1 : ℝ) ≤ (k : ℝ) ^ 2 / 0.81 := by
      rw [le_div_iff (by norm_num : (0 : ℝ) < 0.81)]
      linarith
    calc LPC.LAGUERRE_EPSILON = 1e-10 := rfl
      _ ≤ 1 := by norm_num
      _ = Real.sqrt 1 := Real.sqrt_one.symm
      _ ≤ Real.sqrt ((k : ℝ) ^ 2 / 0.81) := Real.sqrt_le_sqrt h1
  have hGn : ¬ LPC.normSqCx (LPC.complexDiv (LPC.complexScale (LPC.cpow x (k - 1)) (k : ℝ))
      (LPC.cpow x k)) < 1e-20 := by
    rw [hnormG, not_lt]
    have hsq : (1 : ℝ) ≤ (k : ℝ) ^ 2 := by nlinarith
    have h1 : (1 : ℝ) ≤ (k : ℝ) ^ 2 / 0.81 := by
      rw [le_div_iff (by norm_num : (0 : ℝ) < 0.81)]
      linarith
    linarith
  have ha : LPC.complexDiv ⟨(k : ℝ), 0⟩
      (LPC.complexDiv (LPC.complexScale (LPC.cpow x (k - 1)) (k : ℝ)) (LPC.cpow x k)) = x := by
    apply toC_inj
    rw [toC_div _ _ hGn, htG]
    rw [show LPC.toC ⟨(k : ℝ), 0⟩ = (((k : ℝ)) : ℂ) from by
      unfold LPC.toC
      rw [Complex.ext_iff]
      exact ⟨rfl, rfl⟩]
    push_cast
    field_simp
  have habsx : ¬ LPC.complexAbs x < LPC.LAGUERRE_EPSILON := by
    rw [complexAbs_sqrt, hx, not_lt]
    calc LPC.LAGUERRE_EPSILON = 1e-10 := rfl
      _ ≤ Real.sqrt 0.81 := by
        rw [show (0.81 : ℝ) = 0.9 ^ 2 from by norm_num, Real.sqrt_sq (by norm_num)]
        norm_num
  have h0eps : LPC.complexAbs (⟨0, 0⟩ : LPC.Cx) < LPC.LAGUERRE_EPSILON := by
    rw [complexAbs_zero_pair, show LPC.LAGUERRE_EPSILON = 1e-10 from rfl]
    norm_num
  rw [LPC.laguerreGo]
  simp only [evaluatePolynomial_monomial, List.length_cons, List.length_replicate,
    Nat.add_sub_cancel]
  rw [if_neg (abs_cpow_not_lt x k hk14 hx)]
  rw [hdisc, complexSqrt_zero_pair, complexAdd_zero_pair, complexSub_zero_pair,
    if_neg (lt_irrefl _), if_neg hGeps, ha, complexSub_self_pair, if_neg habsx]
  rw [LPC.laguerreGo]
  simp only [evaluatePolynomial_monomial, cpow_zero_base k hk1]
  rw [if_pos h0eps]

theorem Cx_mk_re (a b : ℝ) : (⟨a, b⟩ : LPC.Cx).re = a := rfl

theorem Cx_mk_im (a b : ℝ) : (⟨a, b⟩ : LPC.Cx).im = b := rfl

theorem laguerreRoot_monomial (k : ℕ) (hk1 : 1 ≤ k) (hk14 : k ≤ 14) (θ : ℝ) :
    LPC.laguerreRoot (1 :: List.replicate k (0:ℝ)) ⟨0.9 * Real.cos θ, 0.9 * Real.sin θ⟩
      = ⟨0, 0⟩ := by
  have hx : LPC.normSqCx ⟨0.9 * Real.cos θ, 0.9 * Real.sin θ⟩ = 0.81 := by
    unfold LPC.normSqCx
    simp only [Cx_mk_re, Cx_mk_im]
    have h := Real.sin_sq_add_cos_sq θ
    ring_nf
    ring_nf at h
    linarith
  exact laguerreGo_monomial k hk1 hk14 _ hx 48

theorem deflateGo_zero (l : List ℝ) : ∀ prev, LPC.deflateGo 0 prev l = l := by
  induction l with
  | nil => intro prev; rfl
  | cons c rest ih =>
    intro prev
    show (c + 0 * prev) :: LPC.deflateGo 0 (c + 0 * prev) rest = c :: rest
    rw [zero_mul, add_zero, ih]

theorem deflate_monomial (j : ℕ) :
    LPC.deflatePolynomialArray (1 :: List.replicate (j + 1) (0:ℝ)) 0 = 1 :: List.replicate j 0 := by
  show (1:ℝ) :: LPC.deflateGo 0 1 (List.replicate (j + 1) (0:ℝ)).dropLast
      = 1 :: List.replicate j 0
  rw [List.replicate_succ', List.dropLast_concat, deflateGo_zero]

theorem findAllRootsGo_monomial : ∀ j i, i + j = 14 →
    LPC.findAllRootsGo 14 i (1 :: List.replicate j (0:ℝ))
      = List.replicate j (⟨0, 0⟩ : LPC.Cx) := by
  intro j
  induction j with
  | zero =>
    intro i hi
    rw [LPC.findAllRootsGo, dif_pos (by omega : (14:ℕ) ≤ i)]
    rfl
  | succ j ih =>
    intro i hi
    rw [LPC.findAllRootsGo, dif_neg (by omega : ¬ (14:ℕ) ≤ i)]
    dsimp only
    rw [laguerreRoot_monomial (j + 1) (by omega) (by omega)]
    simp only [Cx_mk_re, Cx_mk_im, abs_zero]
    rw [if_pos (by norm_num : (0:ℝ) < 0.01)]
    rw [deflate_monomial, ih (i + 1) (by omega), List.replicate_succ]

theorem findAllRoots_monomial :
    LPC.findAllRoots (1 :: List.replicate 14 (0:ℝ)) = List.replicate 14 (⟨0, 0⟩ : LPC.Cx) := by
  unfold LPC.findAllRoots
  simp only [List.length_cons, List.length_replicate, Nat.add_sub_cancel]
  exact findAllRootsGo_monomial 14 0 rfl

theorem survivingFormants_zeros (sr : ℕ) : ∀ n,
    LPC.survivingFormants (List.replicate n ⟨0, 0⟩) sr = [] := by
  intro n
  induction n with
  | zero => rfl
  | succ n ih =>
    rw [List.replicate_succ]
    unfold LPC.survivingFormants at ih ⊢
    rw [List.filterMap_cons]
    split
    · exact ih
    · exfalso
      next heq =>
        rw [if_neg ?_] at heq
        · exact Option.noConfusion heq
        · simp only [Cx_mk_re, Cx_mk_im, complexAbs_zero_pair]
          norm_num

theorem rootsToFormants_zeros (n sr : ℕ) :
    LPC.rootsToFormants (List.replicate n ⟨0, 0⟩) sr
      = ((500, 1500, 2500), (80, 100, 120)) := by
  simp only [LPC.rootsToFormants, survivingFormants_zeros]
  rfl

theorem range_map_indicator (n : ℕ) :
    (List.range (n + 1)).map (fun j => if j = 0 then (1:ℝ) else 0)
      = 1 :: List.replicate n 0 := by
  induction n with
  | zero => rfl
  | succ n ih =>
    rw [List.range_succ, List.map_append, ih]
    simp only [List.map_cons, List.map_nil]
    rw [if_neg (Nat.succ_ne_zero n), List.replicate_succ', List.cons_append]

theorem levinsonDurbin_silent (R : List ℝ) (h : R.getD 0 0 < 1e-10) (order : ℕ) :
    LPC.levinsonDurbin R order = 1 :: List.replicate order 0 := by
  simp only [LPC.levinsonDurbin]
  rw [if_pos h]
  exact range_map_indicator order

theorem getD_zero_of_all {l : List ℝ} (h : ∀ x ∈ l, x = 0) : ∀ i, l.getD i 0 = 0 := by
  induction l with
  | nil => intro i; rfl
  | cons a as ih =>
    intro i
    cases i with
    | zero =>
      rw [List.getD_cons_zero]
      exact h a (List.mem_cons_self a as)
    | succ i =>
      rw [List.getD_cons_succ]
      exact ih (fun x hx => h x (List.mem_cons_of_mem a hx)) i

theorem autocorr_zeros (w : List ℝ) (hw : ∀ x ∈ w, x = 0) (lag : ℕ) :
    LPC.autocorrelation w lag = 0 := by
  unfold LPC.autocorrelation
  apply List.sum_eq_zero
  intro x hx
  rw [List.mem_map] at hx
  obtain ⟨i, hi, hxe⟩ := hx
  rw [← hxe, getD_zero_of_all hw, zero_mul]

theorem eq_zero_of_mem_downsample_zeros (m fr tr : ℕ) :
    ∀ x ∈ LPC.downsample (List.replicate m 0) fr tr, x = 0 := by
  intro x hx
  unfold LPC.downsample at hx
  split at hx
  · exact List.eq_of_mem_replicate hx
  · rw [List.mem_map] at hx
    obtain ⟨i, hi, hxe⟩ := hx
    rw [← hxe]
    dsimp only
    have hz : ∀ (S : Finset ℤ) (fs : ℕ) (off : ℤ),
        (∑ j in S, if 0 ≤ off + j ∧ off + j < ((List.replicate m (0:ℝ)).length : ℤ) then
          (List.replicate m (0:ℝ)).getD (off + j).toNat 0 * LPC.triWeight fs j else 0) = 0 := by
      intro S fs off
      apply Finset.sum_eq_zero
      intro j hj
      split
      · rw [getD_zero_of_all (fun y hy => List.eq_of_mem_replicate hy), zero_mul]
      · rfl
    rw [hz, zero_div]

theorem eq_zero_of_mem_preEmphasis (s : List ℝ) (hs : ∀ x ∈ s, x = 0) (a : ℝ) :
    ∀ x ∈ LPC.preEmphasis s a, x = 0 := by
  intro x hx
  unfold LPC.preEmphasis at hx
  rw [List.mem_map] at hx
  obtain ⟨i, hi, hxe⟩ := hx
  rw [← hxe]
  split
  · exact getD_zero_of_all hs 0
  · simp only [getD_zero_of_all hs]
    ring

theorem rootsToFormants_of_silentR (R : List ℝ) (hR : R.getD 0 0 < 1e-10) :
    LPC.rootsToFormants (LPC.findAllRoots (LPC.levinsonDurbin R LPC.LPC_ORDER))
      LPC.TARGET_SAMPLE_RATE = ((500, 1500, 2500), (80, 100, 120)) := by
  rw [levinsonDurbin_silent R hR, show LPC.LPC_ORDER = 14 from rfl, findAllRoots_monomial,
    rootsToFormants_zeros]

/-- **C6**: for an all-zero input signal, every formant frame produced by the
LPC pipeline (`processAudio`) carries the default formants `f1 = 500`,
`f2 = 1500`, `f3 = 2500` Hz and bandwidths `b1 = 80`, `b2 = 100`, `b3 = 120`
Hz: the all-zero window gives `R[0] = 0 < 1e-10`, so Levinson-Durbin aborts
with `a = [1, 0, …, 0]`, every Laguerre root of the resulting monomial is `0`
and is rejected by the `(0.5, 0.99)` magnitude filter, and all three slots
take their defaults. -/
theorem C6_silence_defaults (m sr maxPoints : ℕ) (windowMs : ℝ) (frame : LPC.LPCFrame)
    (hf : frame ∈ (LPC.processAudio (List.replicate m 0) sr windowMs maxPoints).2) :
    frame.f1 = 500 ∧ frame.f2 = 1500 ∧ frame.f3 = 2500 ∧
      frame.b1 = 80 ∧ frame.b2 = 100 ∧ frame.b3 = 120 := by
  have hEz : ∀ x ∈ LPC.preEmphasis
      (LPC.downsample (List.replicate m 0) sr LPC.TARGET_SAMPLE_RATE)
      LPC.PRE_EMPHASIS_ALPHA, x = 0 :=
    eq_zero_of_mem_preEmphasis _ (eq_zero_of_mem_downsample_zeros m sr _) _
  simp only [LPC.processAudio] at hf
  rw [List.mem_map] at hf
  obtain ⟨fi, hfi, hfe⟩ := hf
  rw [rootsToFormants_of_silentR] at hfe
  · subst hfe
    exact ⟨rfl, rfl, rfl, rfl, rfl, rfl⟩
  · simp only [List.range_succ_eq_map, List.map_cons, List.getD_cons_zero]
    rw [autocorr_zeros]
    · norm_num
    · intro x hx
      rw [List.mem_map] at hx
      obtain ⟨i2, hi2, hxe⟩ := hx
      rw [← hxe]
      rw [getD_zero_of_all hEz, zero_mul]

set_option maxRecDepth 4000 in
/-- Witness for C6: a 250-sample all-zero signal at 10 kHz with 25 ms windows
produces one frame, which carries all six default values. -/
theorem C6_silence_defaults_witness :
    ((LPC.processAudio (List.replicate 250 0) 10000 25 100).2.getD 0 default).f1 = 500 ∧
    ((LPC.processAudio (List.replicate 250 0) 10000 25 100).2.getD 0 default).f2 = 1500 ∧
    ((LPC.processAudio (List.replicate 250 0) 10000 25 100).2.getD 0 default).f3 = 2500 ∧
    ((LPC.processAudio (List.replicate 250 0) 10000 25 100).2.getD 0 default).b1 = 80 ∧
    ((LPC.processAudio (List.replicate 250 0) 10000 25 100).2.getD 0 default).b2 = 100 ∧
    ((LPC.processAudio (List.replicate 250 0) 10000 25 100).2.getD 0 default).b3 = 120 := by
  have hds : LPC.downsample (List.replicate 250 (0:ℝ)) 10000 LPC.TARGET_SAMPLE_RATE
      = List.replicate 250 0 := by
    unfold LPC.downsample
    rw [if_pos (by norm_num [LPC.TARGET_SAMPLE_RATE] : (10000:ℕ) ≤ LPC.TARGET_SAMPLE_RATE)]
  have hlen : (LPC.preEmphasis (List.replicate 250 (0:ℝ)) LPC.PRE_EMPHASIS_ALPHA).length
      = 250 := by
    unfold LPC.preEmphasis
    rw [List.length_map, List.length_range, List.length_replicate]
  have hws : (⌊(25:ℝ) / 1000 * ((LPC.TARGET_SAMPLE_RATE : ℕ) : ℝ)⌋).toNat = 250 := by
    rw [show (25:ℝ) / 1000 * ((LPC.TARGET_SAMPLE_RATE : ℕ) : ℝ) = ((250:ℕ):ℝ) from by
      norm_num [LPC.TARGET_SAMPLE_RATE]]
    rw [Int.floor_natCast]
    rfl
  apply C6_silence_defaults 250 10000 100 25
  apply getD_zero_mem
  intro hc
  simp only [LPC.processAudio, hds, hlen, hws] at hc
  have hlc := congrArg List.length hc
  rw [List.length_map, List.length_range, List.length_nil] at hlc
  norm_num at hlc
